import Mathlib

/-!
# Verification of the stable-matching-with-couples encoder (`smp_c.py` / `cplex_py.py`)

This file is a shallow embedding, in Lean 4, of the parts of the
`stable-matching-suite` repository relevant to its specification:

* the instance data model (`Resident`, `Hospital`, `Couple`,
  `ListPreferenceFunction`, the nil hospital, `Agent` equality/hash);
* the instance loader `ProblemInstance.from_file`;
* the DIMACS clause buffer (`ConstraintsBuffer`, `DIMACSClause.render`);
* the matching printer `ProblemInstance.print_matching`;
* the SAT encoder `ProblemInstance.solve_sat` (matching clauses,
  sequential-counter `q` clauses, couple-threshold `cpref` clauses and the
  three stability families), both at an abstract variable level (variables
  named by their role) and at the concrete DIMACS-integer level (with the
  source's variable allocator, registry and solution decoder);
* the MIP encoder `ProblemInstance.solve_mip` and the two verify-mode
  evaluators.

Machine integers of the source are modelled as `Nat`/`Int` (the Python
code uses unbounded ints; the few float coefficients it builds are all
integer-valued and exactly representable, so they are modelled as `Int`).
Python exceptions are modelled with `Except`/`Option`.
-/

namespace SMC

/-- `NIL_HOSPITAL_UID = 999999` (`smp_c.py`). -/
def NIL_UID : Nat := 999999

/-! ## Instance data model

A `Hospital` is its uid, its integer capacity and its ranked list of
resident uids (most preferred first); a `Single` is a single resident with
its ranked list of hospital uids; a `Couple` is its uid, the uids of its
two member residents, and its joint ranked list of hospital-uid pairs.
These carry exactly the data that `Hospital`, `Resident` and `Couple` in
`smp_c.py` carry (preference functions are `ListPreferenceFunction`s over
the stored lists). -/

structure Hospital where
  uid : Nat
  capacity : Nat
  prefs : List Nat
  deriving Repr, DecidableEq

structure Single where
  uid : Nat
  prefs : List Nat
  deriving Repr, DecidableEq

structure Couple where
  uid : Nat
  r0 : Nat
  r1 : Nat
  pairs : List (Nat × Nat)
  deriving Repr, DecidableEq

/-- The distinguished nil hospital: `uid = 999999`, `capacity = 10`,
empty preference list (`NilHospital` in `smp_c.py`). -/
def nilHospital : Hospital := ⟨NIL_UID, 10, []⟩

structure ProblemInstance where
  hospitals : List Hospital
  singles : List Single
  couples : List Couple
  deriving Repr, DecidableEq

/-- `hospital_dict[uid]` lookup: the nil hospital is registered globally at
module load; real hospitals register themselves on construction.  Under the
well-formedness conditions used below the default is never reached. -/
def hospOf (I : ProblemInstance) (u : Nat) : Hospital :=
  if u = NIL_UID then nilHospital
  else (I.hospitals.find? (fun h => h.uid = u)).getD ⟨u, 0, []⟩

/-! ## `ListPreferenceFunction` (claim C7)

`smp_c.py` lines 101-130.  The list is in decreasing preference order
(most preferred first).  A `uid` that is not on the list makes
`get_all_preferred` / `get_all_dispreferred` raise; this is modelled by
returning `none`.  `get_rank` is Python's `list.index`, modelled by
`List.findIdx?`. -/

/-- `ListPreferenceFunction.get_all_preferred`: walks the list
accumulating entries until `uid` is found; raises (`none`) if `uid` is
absent. -/
def get_all_preferred (l : List Nat) (uid : Nat) : Option (List Nat) :=
  match l with
  | [] => none
  | a :: rest =>
      if a = uid then some []
      else (get_all_preferred rest uid).map (fun p => a :: p)

/-- `ListPreferenceFunction.get_all_weakly_preferred`:
`get_all_preferred(uid) + [uid]`. -/
def get_all_weakly_preferred (l : List Nat) (uid : Nat) : Option (List Nat) :=
  (get_all_preferred l uid).map (fun p => p ++ [uid])

/-- `ListPreferenceFunction.get_rank`: `internal_list.index(uid)` — the
position of the first occurrence, raising (`none`) when absent. -/
def get_rank (l : List Nat) (uid : Nat) : Option Nat :=
  match l with
  | [] => none
  | a :: rest =>
      if a = uid then some 0
      else (get_rank rest uid).map (fun k => k + 1)

/-! ## `Agent` equality and hashing (claim C10)

`smp_c.py` lines 196-205: `__hash__` returns `self.uid`, `__eq__` compares
`self.uid == other.uid`.  Nothing else — neither the kind of agent
(resident / hospital / couple / nil hospital) nor any other field — is
consulted. -/

inductive AgentKind where
  | resident | hospital | couple | nilHospital
  deriving Repr, DecidableEq

/-- An `Agent` value as the Python classes see it for equality/hash
purposes: its uid, which subclass it belongs to, and (for hospitals) the
capacity field, which `__eq__`/`__hash__` ignore. -/
structure Agent where
  uid : Nat
  kind : AgentKind
  capacity : Option Nat
  deriving Repr, DecidableEq

/-- `Agent.__eq__`: `self.uid == other.uid`. -/
def Agent.beq (a b : Agent) : Bool := a.uid == b.uid

/-- `Agent.__hash__`: `self.uid`. -/
def Agent.pyHash (a : Agent) : Nat := a.uid

/-! ## `Couple.__init__` ranked-hospital projections (claim C5)

`smp_c.py` lines 294-311: the per-member ranked hospital list is
`list(set(projection))`.  A CPython 2 `set` of small distinct
non-negative ints iterates in hash-table slot order: with table size 8
(no resize happens for at most 5 distinct elements) and `hash(n) = n`,
an element `n < 8` sits in slot `n` and `999999` (`999999 & 7 = 7`) sits
in slot 7, so iteration is in ascending value order.  All instances used
in theorems below keep uids in `{0..6} ∪ {999999}` with at most 5 distinct
projected values, where this model is exact. -/

/-- CPython 2 `list(set(xs))` for small distinct non-negative ints:
ascending order, duplicates removed. -/
def pySetList (xs : List Nat) : List Nat :=
  xs.dedup.insertionSort (· ≤ ·)

/-- `self.ranked_hospitals[self.residents[0]] = list(set(r0_ranked))`
where `r0_ranked` collects the first component of every joint pair. -/
def Couple.rankedHospitals0 (c : Couple) : List Nat :=
  pySetList (c.pairs.map Prod.fst)

/-- `self.ranked_hospitals[self.residents[1]] = list(set(r1_ranked))`. -/
def Couple.rankedHospitals1 (c : Couple) : List Nat :=
  pySetList (c.pairs.map Prod.snd)

/-- The deduplicated projection in *first-occurrence* order — what the
spec (and claim C5) say `get_ranked_hospitals` returns. -/
def firstDedup : List Nat → List Nat
  | [] => []
  | x :: xs => x :: (firstDedup xs).filter (fun y => y ≠ x)

/-! ## `ProblemInstance.from_file` (claim C4)

`smp_c.py` lines 399-466.  The input is modelled one level above raw
text: a list of already-tokenized lines (`#`/whitespace lines are
`comment`, unrecognized first tokens are `unreadable`); `-1` tokens in
couple pair positions are already translated to `NIL_UID`, as the source
does inline.  Modelled with `append_nil = False`, which is how `main`
invokes it.

The crucial detail, kept faithfully: `from_file` assigns
`resident_dict = {}`, `hospital_dict = {}`, `couple_dict = {}` as *local*
variables and performs its duplicate-uid checks against them, but these
locals are never written — `Resident.__init__`, `Hospital.__init__` and
`Couple.__init__` write the *module-global* dictionaries of the same
names.  The model threads both: the locals (checked, never extended) and
the globals (extended, never checked). -/

inductive PLine where
  | comment
  | rline (uid : Nat) (prefs : List Nat)
  | pline (uid : Nat) (cap : Nat) (prefs : List Nat)
  | cline (uid r0 r1 : Nat) (pairs : List (Nat × Nat))
  | unreadable
  deriving Repr, DecidableEq

structure LoaderState where
  -- the locals of `from_file` (read by the duplicate checks, never written)
  localResidents : List Nat
  localHospitals : List Nat
  localCouples : List Nat
  -- the module-global dicts (written by the entity constructors, never read here)
  globalResidents : List Nat
  globalHospitals : List Nat
  globalCouples : List Nat
  hospitals : List Hospital
  singles : List Single
  couples : List Couple
  deriving Repr, DecidableEq

def from_file_go : List PLine → LoaderState → Except String ProblemInstance
  | [], st => .ok ⟨st.hospitals, st.singles, st.couples⟩
  | .comment :: rest, st => from_file_go rest st
  | .rline uid prefs :: rest, st =>
      if uid ∈ st.localResidents then .error "duplicate resident"
      else
        -- Resident(...) writes the global dict; the local stays unchanged
        from_file_go rest { st with
          globalResidents := st.globalResidents ++ [uid],
          singles := st.singles ++ [⟨uid, prefs⟩] }
  | .pline uid cap prefs :: rest, st =>
      if uid ∈ st.localHospitals then .error "duplicate program"
      else
        from_file_go rest { st with
          globalHospitals := st.globalHospitals ++ [uid],
          hospitals := st.hospitals ++ [⟨uid, cap, prefs⟩] }
  | .cline uid r0 r1 pairs :: rest, st =>
      if uid ∈ st.localCouples then .error "duplicate couple"
      else if r0 ∈ st.localResidents then .error "resident in couple already defined"
      else if r1 ∈ st.localResidents then .error "resident in couple already defined"
      else
        from_file_go rest { st with
          globalCouples := st.globalCouples ++ [uid],
          globalResidents := st.globalResidents ++ [r0, r1],
          couples := st.couples ++ [⟨uid, r0, r1, pairs⟩] }
  | .unreadable :: _, _ => .error "line not readable"

def from_file (lines : List PLine) : Except String ProblemInstance :=
  from_file_go lines ⟨[], [], [], [], [], [], [], [], []⟩

/-! ## `DIMACSClause` and `ConstraintsBuffer` (claim C8)

`smp_c.py` lines 325-369.  The backing file is modelled as the list of
lines written to it so far (each `f.write(... + '\n')` appends one
line); creation truncates the file (`open(_, 'w')`). -/

/-- `DIMACSClause.render`: literals space-separated, terminated `' 0'`. -/
def renderClause (var_list : List Int) : String :=
  String.intercalate " " (var_list.map toString) ++ " 0"

/-- `self.buffer_size = 5000`. -/
def bufferSize : Nat := 5000

structure BufferState where
  fileLines : List String
  buffer_list : List (List Int)
  deriving Repr, DecidableEq

/-- `ConstraintsBuffer.__init__`: truncate the file, empty window. -/
def bufferCreate : BufferState := ⟨[], []⟩

/-- `ConstraintsBuffer.append`. -/
def bufferAppend (st : BufferState) (c : List Int) : BufferState :=
  if st.buffer_list.length < bufferSize then
    { st with buffer_list := st.buffer_list ++ [c] }
  else
    ⟨st.fileLines ++ st.buffer_list.map renderClause ++ [renderClause c], []⟩

/-- `ConstraintsBuffer.flush` (without the verbose debug print). -/
def bufferFlush (st : BufferState) : BufferState :=
  ⟨st.fileLines ++ st.buffer_list.map renderClause, []⟩

/-- The unbuffered reference sink: write each clause to the file as it is
appended. -/
def directWrite (fileLines : List String) (c : List Int) : List String :=
  fileLines ++ [renderClause c]

/-! ## `ProblemInstance.print_matching` (claim C9)

`smp_c.py` lines 469-482.  The matching dict is modelled as an
association list (dict iteration order is whatever the list order is);
output is the list of lines written. -/

/-- The single line written for one matching entry: `'r %d %s' % (uid, '-1')`
when the value is the nil hospital, `'r %d %d'` otherwise. -/
def matchLineStr (p : Nat × Nat) : String :=
  if p.2 = NIL_UID then "r " ++ toString p.1 ++ " -1"
  else "r " ++ toString p.1 ++ " " ++ toString p.2

def print_matching (matching : List (Nat × Nat)) (header : Option String) :
    List String :=
  let afterHeader : List String :=
    match header with
    | some s => ["# " ++ s]
    | none => []
  if matching.length = 0 then afterHeader ++ ["m 0"]
  else matching.foldl (fun acc p => acc ++ [matchLineStr p]) (afterHeader ++ ["m 1"])

/-! ## The SAT encoder (`ProblemInstance.solve_sat`), abstract variable level

`smp_c.py` lines 788-1095.  The source allocates consecutive DIMACS
integers for the variables `res_match[resident][hospital]`,
`q[hospital][i][j]` and `cpref[couple][k]`; the allocator is strictly
monotone, so distinct roles receive distinct integers and a truth
assignment over the integers is exactly a truth assignment over the
roles.  Clauses are therefore modelled over an inductive type of
variable *roles* (the payload of each constructor is what the source
uses as dictionary keys — all dictionaries hash agents by uid).  The one
place where two allocations share a role — a couple member whose
projected ranked-hospital list already contains the nil hospital, where
the nil column is allocated twice and the first integer is orphaned — is
treated separately at the concrete integer level below (the orphan
appears in no clause, so clause satisfaction is unaffected).

`combinations` (`smp_c.py` lines 43-61) for `r = 2` is `combPairs`. -/

inductive Var where
  | rm (r h : Nat)
  | q (h i j : Nat)
  | cp (c k : Nat)
  deriving Repr, DecidableEq

abbrev Lit := Var × Bool

abbrev Clause := List Lit

def pos (v : Var) : Lit := (v, true)

def neg (v : Var) : Lit := (v, false)

def litEval (σ : Var → Bool) (l : Lit) : Bool :=
  if l.2 then σ l.1 else !(σ l.1)

def clauseEval (σ : Var → Bool) (c : Clause) : Bool :=
  c.any (litEval σ)

/-- `σ` satisfies every clause of the list. -/
def SatAll (σ : Var → Bool) (cs : List Clause) : Prop :=
  ∀ c ∈ cs, clauseEval σ c = true

/-- `itertools`-style `combinations(l, 2)` in emission order. -/
def combPairs {α : Type} : List α → List (α × α)
  | [] => []
  | x :: xs => xs.map (fun y => (x, y)) ++ combPairs xs

/-- At-least-one clauses for the singles (allocation loop, lines 822-836):
one clause per single resident over its ranked hospitals plus the nil
column. -/
def aloSingles (I : ProblemInstance) : List Clause :=
  I.singles.map (fun s =>
    s.prefs.map (fun hu => pos (.rm s.uid hu)) ++ [pos (.rm s.uid NIL_UID)])

/-- At-least-one clauses for couple members (lines 837-853): per couple,
per member, over the member's projected ranked hospitals plus nil.  The
dictionary lookups building the clause happen after the explicit nil
column is (re-)allocated, so every literal refers to the live column. -/
def aloCouples (I : ProblemInstance) : List Clause :=
  I.couples.flatMap (fun c =>
    [ c.rankedHospitals0.map (fun hu => pos (.rm c.r0 hu)) ++ [pos (.rm c.r0 NIL_UID)],
      c.rankedHospitals1.map (fun hu => pos (.rm c.r1 hu)) ++ [pos (.rm c.r1 NIL_UID)] ])

/-- Pairwise at-most-one clauses for singles (lines 855-859). -/
def amoSingles (I : ProblemInstance) : List Clause :=
  I.singles.flatMap (fun s =>
    (combPairs (s.prefs ++ [NIL_UID])).map (fun p =>
      [neg (.rm s.uid p.1), neg (.rm s.uid p.2)]))

/-- Pairwise at-most-one clauses for couple members (lines 861-869); the
column list passes through `set(...)` again. -/
def amoCouples (I : ProblemInstance) : List Clause :=
  I.couples.flatMap (fun c =>
    (combPairs (pySetList (c.rankedHospitals0 ++ [NIL_UID]))).map (fun p =>
      [neg (.rm c.r0 p.1), neg (.rm c.r0 p.2)]) ++
    (combPairs (pySetList (c.rankedHospitals1 ++ [NIL_UID]))).map (fun p =>
      [neg (.rm c.r1 p.1), neg (.rm c.r1 p.2)]))

/-- All matching clauses, in emission order. -/
def matchingClauses (I : ProblemInstance) : List Clause :=
  aloSingles I ++ aloCouples I ++ amoSingles I ++ amoCouples I

/-- `res_match[resident_dict[ordering[i - 1]]][h]`: the match variable of
the `i`-th resident (1-based) of `h`'s preference list. -/
def yVar (h : Hospital) (i : Nat) : Var :=
  .rm (h.prefs.getD (i - 1) 0) h.uid

/-- Sequential-counter base clauses, `i = 1` (lines 893-905). -/
def qBase (h : Hospital) : List Clause :=
  [ [pos (yVar h 1), pos (.q h.uid 1 0)],
    [neg (yVar h 1), pos (.q h.uid 1 1)],
    [neg (yVar h 1), neg (.q h.uid 1 0)],
    [pos (yVar h 1), neg (.q h.uid 1 1)] ]

/-- Sequential-counter step clauses for one `j` at level `i > 1`
(lines 907-938). -/
def qStep (h : Hospital) (i j : Nat) : List Clause :=
  if j = 0 then
    [ [neg (yVar h i), neg (.q h.uid i 0)],
      [pos (.q h.uid (i - 1) 0), neg (.q h.uid i 0)],
      [pos (yVar h i), neg (.q h.uid (i - 1) 0), pos (.q h.uid i 0)] ]
  else if j = i then
    [ [pos (yVar h i), neg (.q h.uid i j)],
      [pos (.q h.uid (i - 1) (j - 1)), neg (.q h.uid i j)],
      [neg (yVar h i), neg (.q h.uid (i - 1) (j - 1)), pos (.q h.uid i j)] ]
  else
    [ [neg (yVar h i), neg (.q h.uid (i - 1) (j - 1)), pos (.q h.uid i j)],
      [pos (yVar h i), neg (.q h.uid (i - 1) j), pos (.q h.uid i j)],
      [pos (yVar h i), pos (.q h.uid (i - 1) j), neg (.q h.uid i j)],
      [neg (yVar h i), pos (.q h.uid (i - 1) (j - 1)), neg (.q h.uid i j)] ]

/-- The clauses emitted for one counter level `i ∈ 1..len` of hospital
`h`: base or step block, then the overflow unit clause when
`i ≥ capacity + 1` (lines 885-941). -/
def qLevel (h : Hospital) (i : Nat) : List Clause :=
  (if i = 1 then qBase h
   else (List.range (min (i + 1) (h.capacity + 2))).flatMap (qStep h i)) ++
  (if h.capacity + 1 ≤ i then [[neg (.q h.uid i (h.capacity + 1))]] else [])

/-- All sequential-counter clauses of one hospital. -/
def qHospital (h : Hospital) : List Clause :=
  (List.range h.prefs.length).flatMap (fun i0 => qLevel h (i0 + 1))

/-- All sequential-counter clauses (the nil hospital is not in
`self.hospitals` and gets none). -/
def qClausesAll (I : ProblemInstance) : List Clause :=
  I.hospitals.flatMap qHospital

/-- `cpref` clauses of one couple: ranks `0..len-1`, then the terminal
`(nil, nil)` rank `len` (lines 948-1005). -/
def cprefCouple (c : Couple) : List Clause :=
  (List.range c.pairs.length).flatMap (fun k =>
    let p := c.pairs.getD k (0, 0)
    if k = 0 then
      [ [neg (.cp c.uid 0), pos (.rm c.r0 p.1)],
        [neg (.cp c.uid 0), pos (.rm c.r1 p.2)],
        [pos (.cp c.uid 0), neg (.rm c.r0 p.1), neg (.rm c.r1 p.2)] ]
    else
      [ [neg (.cp c.uid k), pos (.cp c.uid (k - 1)), pos (.rm c.r0 p.1)],
        [neg (.cp c.uid k), pos (.cp c.uid (k - 1)), pos (.rm c.r1 p.2)],
        [pos (.cp c.uid k), neg (.cp c.uid (k - 1))],
        [pos (.cp c.uid k), neg (.rm c.r0 p.1), neg (.rm c.r1 p.2)] ]) ++
  [ [neg (.cp c.uid c.pairs.length), pos (.cp c.uid (c.pairs.length - 1)),
      pos (.rm c.r0 NIL_UID)],
    [neg (.cp c.uid c.pairs.length), pos (.cp c.uid (c.pairs.length - 1)),
      pos (.rm c.r1 NIL_UID)],
    [pos (.cp c.uid c.pairs.length), neg (.cp c.uid (c.pairs.length - 1))],
    [pos (.cp c.uid c.pairs.length), neg (.rm c.r0 NIL_UID), neg (.rm c.r1 NIL_UID)] ]

def cprefClausesAll (I : ProblemInstance) : List Clause :=
  I.couples.flatMap cprefCouple

/-- "each couple must be matched to one of their ranked pairs or
(nil, nil)" (lines 1008-1010). -/
def cprefBigOr (I : ProblemInstance) : List Clause :=
  I.couples.map (fun c =>
    (List.range (c.pairs.length + 1)).map (fun k => pos (.cp c.uid k)))

/-- The rank of `r` on list `l` (Python `list.index`); total with default
0, only ever used under hypotheses making `get_rank` succeed. -/
def rankIn (l : List Nat) (r : Nat) : Nat :=
  (get_rank l r).getD 0

/-- One entry of `append_q_vars` (lines 1012-1019): for `(hospital,
resident, number)`, the literal `q[hospital][rank][number]` when the
hospital is not nil and `rank ≥ number`, nothing otherwise. -/
def qRefLit (h : Hospital) (r n : Nat) : Option Lit :=
  if h.uid = NIL_UID then none
  else if n ≤ rankIn h.prefs r then some (pos (.q h.uid (rankIn h.prefs r) n))
  else none

def append_q_vars (l : Clause) (qvars : List (Hospital × Nat × Nat)) : Clause :=
  l ++ qvars.filterMap (fun t => qRefLit t.1 t.2.1 t.2.2)

/-- `single.get_all_weakly_preferred(h_uid)` with the list total-ized;
used only where the uid is on the list. -/
def weaklyList (l : List Nat) (x : Nat) : List Nat :=
  (get_all_weakly_preferred l x).getD []

/-- Instability clauses for singles (lines 1021-1027). -/
def stabSingles (I : ProblemInstance) : List Clause :=
  I.singles.flatMap (fun s =>
    s.prefs.map (fun hu =>
      let h := hospOf I hu
      append_q_vars ((weaklyList s.prefs hu).map (fun hu2 => pos (.rm s.uid hu2)))
        [(h, s.uid, h.capacity)]))

/-- "one member of a couple switches" (lines 1029-1063). -/
def stabCoupleSingle (I : ProblemInstance) : List Clause :=
  I.couples.flatMap (fun c =>
    ((List.range c.pairs.length).flatMap (fun n =>
      let p := c.pairs.getD n (0, 0)
      let h0 := hospOf I p.1
      let h1 := hospOf I p.2
      if h0.uid ≠ h1.uid then
        [ append_q_vars [neg (.rm c.r1 p.2), pos (.cp c.uid n)]
            [(h0, c.r0, h0.capacity)],
          append_q_vars [neg (.rm c.r0 p.1), pos (.cp c.uid n)]
            [(h1, c.r1, h1.capacity)] ]
      else if rankIn h0.prefs c.r0 < rankIn h0.prefs c.r1 then
        [ append_q_vars [neg (.rm c.r1 p.2), pos (.cp c.uid n)]
            [(h0, c.r0, h0.capacity), (h1, c.r1, h1.capacity - 1)],
          append_q_vars [neg (.rm c.r0 p.1), pos (.cp c.uid n)]
            [(h1, c.r1, h1.capacity)] ]
      else
        [ append_q_vars [neg (.rm c.r1 p.2), pos (.cp c.uid n)]
            [(h0, c.r0, h0.capacity)],
          append_q_vars [neg (.rm c.r0 p.1), pos (.cp c.uid n)]
            [(h0, c.r0, h0.capacity - 1), (h1, c.r1, h1.capacity)] ]) ++
    [ [neg (.rm c.r0 NIL_UID), pos (.cp c.uid c.pairs.length)],
      [neg (.rm c.r1 NIL_UID), pos (.cp c.uid c.pairs.length)] ]))

/-- "both members of a couple switch" (lines 1065-1090). -/
def stabCoupleDouble (I : ProblemInstance) : List Clause :=
  I.couples.flatMap (fun c =>
    ((List.range c.pairs.length).flatMap (fun n =>
      let p := c.pairs.getD n (0, 0)
      let h0 := hospOf I p.1
      let h1 := hospOf I p.2
      if h0.capacity = 0 ∨ h1.capacity = 0 then []
      else if h0.uid ≠ h1.uid then
        [ append_q_vars
            [pos (.rm c.r0 p.1), pos (.rm c.r1 p.2), pos (.cp c.uid n)]
            [(h0, c.r0, h0.capacity), (h1, c.r1, h1.capacity)] ]
      else if h0.capacity = 1 then []
      else
        [ append_q_vars
            [pos (.rm c.r0 p.1), pos (.rm c.r1 p.2), pos (.cp c.uid n)]
            [(h0, c.r0, h0.capacity), (h1, c.r1, h1.capacity),
             (h0, c.r0, h0.capacity - 1), (h1, c.r1, h1.capacity - 1)] ]) ++
    [ [pos (.rm c.r0 NIL_UID), pos (.rm c.r1 NIL_UID),
        pos (.cp c.uid c.pairs.length)] ]))

/-- The full clause set emitted by `solve_sat`, in emission order. -/
def encode (I : ProblemInstance) : List Clause :=
  matchingClauses I ++ qClausesAll I ++ cprefClausesAll I ++ cprefBigOr I ++
  stabSingles I ++ stabCoupleSingle I ++ stabCoupleDouble I

/-! ## Decoding a satisfying assignment

The decoder (lines 1197-1215) maps each resident to the hospital whose
match variable is true.  At the abstract level: a resident's columns are
its ranked hospitals plus nil, and we pick the (under the matching
clauses: unique) true column. -/

/-- The hospital-uid columns of resident `r`: its ranked list plus the
nil column. -/
def resCols (I : ProblemInstance) (r : Nat) : List Nat :=
  match I.singles.find? (fun s => s.uid = r) with
  | some s => s.prefs ++ [NIL_UID]
  | none =>
      match I.couples.find? (fun c => c.r0 = r || c.r1 = r) with
      | some c =>
          (if c.r0 = r then c.rankedHospitals0 else c.rankedHospitals1) ++ [NIL_UID]
      | none => [NIL_UID]

/-- The matching decoded from assignment `σ`: the first (unique, under
the matching clauses) column of `r` whose match variable is true;
`NIL_UID` when none is. -/
def decodeMu (σ : Var → Bool) (I : ProblemInstance) (r : Nat) : Nat :=
  ((resCols I r).find? (fun hu => σ (.rm r hu))).getD NIL_UID

/-! ## Decoded-matching properties (the spec's stability statement)

These predicates speak only about the instance and a matching
`m : resident uid → hospital uid`; they are the formal reading of the
spec sentence quoted in claim C1. -/

/-- `m` assigns couple `c` exactly its `k`-th ranked pair. -/
def matchedAtIdx (m : Nat → Nat) (c : Couple) (k : Nat) : Prop :=
  m c.r0 = (c.pairs.getD k (0, 0)).1 ∧ m c.r1 = (c.pairs.getD k (0, 0)).2

/-- `m` assigns couple `c` a pair of rank at most `k`; rank
`k = |pairs|` additionally admits the `(nil, nil)` assignment. -/
def MatchedAtLe (m : Nat → Nat) (c : Couple) (k : Nat) : Prop :=
  (∃ j, j ≤ k ∧ j < c.pairs.length ∧ matchedAtIdx m c j) ∨
  (c.pairs.length ≤ k ∧ m c.r0 = NIL_UID ∧ m c.r1 = NIL_UID)

/-- Hospital `hu` holds exactly `n` residents that it ranks strictly
before `r` under matching `m` — for `n` the capacity: the hospital is at
capacity with residents it weakly prefers to `r` (an outside `r` is not
an occupant, so weakly-preferred occupants are the strictly-preferred
ranked residents assigned to `hu`). -/
def fullUpTo (I : ProblemInstance) (m : Nat → Nat) (hu r n : Nat) : Prop :=
  (((hospOf I hu).prefs.take (rankIn (hospOf I hu).prefs r)).countP
    (fun x => m x == hu)) = n

/-- No single resident forms a blocking pair: whenever single `s` strictly
prefers ranked hospital `hu` to its assignment (any ranked hospital when
unassigned), `hu` is at capacity with residents it weakly prefers to
`s`. -/
def SinglesStable (I : ProblemInstance) (m : Nat → Nat) : Prop :=
  ∀ s ∈ I.singles, ∀ hu ∈ s.prefs,
    (m s.uid = NIL_UID ∨ rankIn s.prefs hu < rankIn s.prefs (m s.uid)) →
    fullUpTo I m hu s.uid (hospOf I hu).capacity

/-- For a couple `c` and a ranked pair `p = pairs[n]` strictly preferred
to `c`'s assignment, the switch of one member (the other staying put) is
blocked: the moving member's hospital is full of weakly-preferred
residents (for a shared hospital, with the capacity adjustments the
encoder uses, according to which member the hospital prefers). -/
def coupleSingleSwitchBlocked (I : ProblemInstance) (m : Nat → Nat)
    (c : Couple) (p : Nat × Nat) : Prop :=
  let h0 := hospOf I p.1
  let h1 := hospOf I p.2
  if p.1 ≠ p.2 then
    (m c.r1 = p.2 → p.1 ≠ NIL_UID ∧ fullUpTo I m p.1 c.r0 h0.capacity) ∧
    (m c.r0 = p.1 → p.2 ≠ NIL_UID ∧ fullUpTo I m p.2 c.r1 h1.capacity)
  else if rankIn h0.prefs c.r0 < rankIn h0.prefs c.r1 then
    (m c.r1 = p.2 →
      fullUpTo I m p.1 c.r0 h0.capacity ∨ fullUpTo I m p.2 c.r1 (h1.capacity - 1)) ∧
    (m c.r0 = p.1 → fullUpTo I m p.2 c.r1 h1.capacity)
  else
    (m c.r1 = p.2 → fullUpTo I m p.1 c.r0 h0.capacity) ∧
    (m c.r0 = p.1 →
      fullUpTo I m p.1 c.r0 (h0.capacity - 1) ∨ fullUpTo I m p.2 c.r1 h1.capacity)

/-- For a couple `c` and a ranked pair `p = pairs[n]` strictly preferred
to `c`'s assignment, the simultaneous switch of both members is blocked:
some member is already at its target, or some target hospital is full of
weakly-preferred residents (with the shared-hospital capacity
adjustments). -/
def coupleDoubleSwitchBlocked (I : ProblemInstance) (m : Nat → Nat)
    (c : Couple) (p : Nat × Nat) : Prop :=
  let h0 := hospOf I p.1
  let h1 := hospOf I p.2
  if h0.capacity = 0 ∨ h1.capacity = 0 then True
  else if p.1 ≠ p.2 then
    m c.r0 = p.1 ∨ m c.r1 = p.2 ∨
    (p.1 ≠ NIL_UID ∧ fullUpTo I m p.1 c.r0 h0.capacity) ∨
    (p.2 ≠ NIL_UID ∧ fullUpTo I m p.2 c.r1 h1.capacity)
  else if h0.capacity = 1 then True
  else
    m c.r0 = p.1 ∨ m c.r1 = p.2 ∨
    fullUpTo I m p.1 c.r0 h0.capacity ∨ fullUpTo I m p.2 c.r1 h1.capacity ∨
    fullUpTo I m p.1 c.r0 (h0.capacity - 1) ∨ fullUpTo I m p.2 c.r1 (h1.capacity - 1)

/-- No couple forms a blocking pair: for every ranked pair strictly
preferred to the couple's assignment, every contemplated switch (one
member moves, or both move) has a blocked component. -/
def CouplesStable (I : ProblemInstance) (m : Nat → Nat) : Prop :=
  ∀ c ∈ I.couples, ∀ n, n < c.pairs.length →
    ¬ MatchedAtLe m c n →
    coupleSingleSwitchBlocked I m c (c.pairs.getD n (0, 0)) ∧
    coupleDoubleSwitchBlocked I m c (c.pairs.getD n (0, 0))

/-! ## Well-formedness of an instance

These are the standing invariants of the data model (spec §3) together
with the cross-reference conditions without which `solve_sat` raises
(`KeyError`/`ValueError`/`IndexError`) before emitting a complete clause
set: every referenced entity exists, every hospital ranks exactly
residents that rank it back, lists are duplicate-free, pair lists are
nonempty, and a hospital shared by both components of a ranked pair has
capacity at least 1 (otherwise `append_q_vars` is called with the count
`-1`, which hits a missing dictionary key). -/

def residentUids (I : ProblemInstance) : List Nat :=
  I.singles.map Single.uid ++ I.couples.flatMap (fun c => [c.r0, c.r1])

def hospExists (I : ProblemInstance) (hu : Nat) : Prop :=
  ∃ h ∈ I.hospitals, h.uid = hu

structure Wf (I : ProblemInstance) : Prop where
  nodupHosp : (I.hospitals.map Hospital.uid).Nodup
  hospNotNil : ∀ h ∈ I.hospitals, h.uid ≠ NIL_UID
  nodupRes : (residentUids I).Nodup
  resNotNil : ∀ r ∈ residentUids I, r ≠ NIL_UID
  nodupCouples : (I.couples.map Couple.uid).Nodup
  singlesOk : ∀ s ∈ I.singles, s.prefs.Nodup ∧
    ∀ hu ∈ s.prefs, hu ≠ NIL_UID ∧ hospExists I hu ∧
      s.uid ∈ (hospOf I hu).prefs
  couplesOk : ∀ c ∈ I.couples, c.pairs ≠ [] ∧ c.pairs.Nodup ∧
    ∀ p ∈ c.pairs,
      (p.1 = NIL_UID ∨ hospExists I p.1) ∧ (p.2 = NIL_UID ∨ hospExists I p.2) ∧
      (p.1 ≠ NIL_UID → c.r0 ∈ (hospOf I p.1).prefs) ∧
      (p.2 ≠ NIL_UID → c.r1 ∈ (hospOf I p.2).prefs) ∧
      (p.1 = p.2 → 1 ≤ (hospOf I p.1).capacity)
  hospPrefsOk : ∀ h ∈ I.hospitals, h.prefs.Nodup ∧
    ∀ r ∈ h.prefs, r ∈ residentUids I ∧ h.uid ∈ resCols I r

/-- The amendment forced by the orphaned-nil-column decoding bug: no
couple ranks a pair with a nil component (so each member's column list
mentions nil exactly once and the registry decode agrees with
`decodeMu`). -/
def NoNilPairs (I : ProblemInstance) : Prop :=
  ∀ c ∈ I.couples, ∀ p ∈ c.pairs, p.1 ≠ NIL_UID ∧ p.2 ≠ NIL_UID

instance decSatAll (σ : Var → Bool) (cs : List Clause) :
    Decidable (SatAll σ cs) :=
  inferInstanceAs (Decidable (∀ c ∈ cs, clauseEval σ c = true))

instance decHospExists (I : ProblemInstance) (hu : Nat) :
    Decidable (hospExists I hu) :=
  inferInstanceAs (Decidable (∃ h ∈ I.hospitals, h.uid = hu))

instance decNoNilPairs (I : ProblemInstance) : Decidable (NoNilPairs I) :=
  inferInstanceAs
    (Decidable (∀ c ∈ I.couples, ∀ p ∈ c.pairs, p.1 ≠ NIL_UID ∧ p.2 ≠ NIL_UID))

/-! ## The SAT encoder at the concrete DIMACS-integer level

This mirrors `solve_sat` literally: the monotone `UIDAllocator` (first
uid 1), the `variable_registry` (variable number → name, in allocation
order), the `res_match` / `q` / `cpref` dictionaries (association lists
where a prepended entry overwrites, as a Python dict assignment does),
and the clause stream.  The point of this level is the one behaviour the
abstract level cannot express: when a couple member's projected
ranked-hospital list already contains the nil hospital, the member's nil
column is allocated twice (once in the loop over
`get_ranked_hospitals`, once by the unconditional nil allocation of
lines 848-850); the first variable is *orphaned* — it stays registered
under the same `xc_...` name but appears in no clause — and the solution
decoder (lines 1199-1215), which processes the solver's `v`-line in
ascending variable order, lets a positive orphan overwrite the real
assignment. -/

inductive VName where
  | xr (r h : Nat)
  | xc (c r h : Nat)
  | qn (h i j : Nat)
  | cpn (c k : Nat)
  deriving Repr, DecidableEq

structure EncState where
  lastUid : Nat
  registry : List (Nat × VName)
  resMatch : List ((Nat × Nat) × Nat)
  qTab : List ((Nat × Nat × Nat) × Nat)
  cpTab : List ((Nat × Nat) × Nat)
  clauses : List (List Int)
  deriving Repr

/-- Allocate the next variable (the `UIDAllocator` with first uid 1),
register its name, and record it in the given table updater. -/
def allocWith (st : EncState) (name : VName)
    (rec : EncState → Nat → EncState) : EncState :=
  let v := st.lastUid + 1
  rec { st with lastUid := v, registry := st.registry ++ [(v, name)] } v

def rmLookup (st : EncState) (r h : Nat) : Nat :=
  (((st.resMatch.find? (fun e => e.1 == (r, h))).map Prod.snd).getD 0)

def qLookup (st : EncState) (h i j : Nat) : Nat :=
  (((st.qTab.find? (fun e => e.1 == (h, i, j))).map Prod.snd).getD 0)

def cpLookup (st : EncState) (c k : Nat) : Nat :=
  (((st.cpTab.find? (fun e => e.1 == (c, k))).map Prod.snd).getD 0)

def emit (st : EncState) (cs : List (List Int)) : EncState :=
  { st with clauses := st.clauses ++ cs }

/-- Allocate the match variables of one resident (ranked columns then the
nil column — re-registering the nil name and shadowing the table entry
when nil is already among the columns) and emit its at-least-one
clause. -/
def allocResident (st : EncState) (mkName : Nat → VName) (r : Nat)
    (ranked : List Nat) : EncState :=
  let st := ranked.foldl (fun st hu =>
    allocWith st (mkName hu) (fun st v =>
      { st with resMatch := ((r, hu), v) :: st.resMatch })) st
  let st := allocWith st (mkName NIL_UID) (fun st v =>
    { st with resMatch := ((r, NIL_UID), v) :: st.resMatch })
  emit st [(ranked.map (fun hu => (rmLookup st r hu : Int))) ++
    [(rmLookup st r NIL_UID : Int)]]

def phaseAloSingles (I : ProblemInstance) (st : EncState) : EncState :=
  I.singles.foldl (fun st s =>
    allocResident st (fun hu => .xr s.uid hu) s.uid s.prefs) st

def phaseAloCouples (I : ProblemInstance) (st : EncState) : EncState :=
  I.couples.foldl (fun st c =>
    let st := allocResident st (fun hu => .xc c.uid c.r0 hu) c.r0
      c.rankedHospitals0
    allocResident st (fun hu => .xc c.uid c.r1 hu) c.r1
      c.rankedHospitals1) st

def phaseAmoSingles (I : ProblemInstance) (st : EncState) : EncState :=
  I.singles.foldl (fun st s =>
    emit st ((combPairs (s.prefs ++ [NIL_UID])).map (fun pr =>
      [-(rmLookup st s.uid pr.1 : Int), -(rmLookup st s.uid pr.2 : Int)]))) st

def phaseAmoCouples (I : ProblemInstance) (st : EncState) : EncState :=
  I.couples.foldl (fun st c =>
    let st := emit st ((combPairs (pySetList (c.rankedHospitals0 ++ [NIL_UID]))).map
      (fun pr => [-(rmLookup st c.r0 pr.1 : Int), -(rmLookup st c.r0 pr.2 : Int)]))
    emit st ((combPairs (pySetList (c.rankedHospitals1 ++ [NIL_UID]))).map
      (fun pr => [-(rmLookup st c.r1 pr.1 : Int), -(rmLookup st c.r1 pr.2 : Int)]))) st

def qAllocLevel (h : Hospital) (i : Nat) (st : EncState) : EncState :=
  (List.range (min (i + 1) (h.capacity + 2))).foldl (fun st j =>
    allocWith st (.qn h.uid i j) (fun st v =>
      { st with qTab := ((h.uid, i, j), v) :: st.qTab })) st

def qEmitLevel (h : Hospital) (i : Nat) (st : EncState) : EncState :=
  let y : Int := (rmLookup st (h.prefs.getD (i - 1) 0) h.uid : Int)
  let cls : List (List Int) :=
    (if i = 1 then
      [[y, (qLookup st h.uid 1 0 : Int)],
       [-y, (qLookup st h.uid 1 1 : Int)],
       [-y, -(qLookup st h.uid 1 0 : Int)],
       [y, -(qLookup st h.uid 1 1 : Int)]]
    else
      (List.range (min (i + 1) (h.capacity + 2))).flatMap (fun j =>
        if j = 0 then
          [[-y, -(qLookup st h.uid i 0 : Int)],
           [(qLookup st h.uid (i - 1) 0 : Int), -(qLookup st h.uid i 0 : Int)],
           [y, -(qLookup st h.uid (i - 1) 0 : Int), (qLookup st h.uid i 0 : Int)]]
        else if j = i then
          [[y, -(qLookup st h.uid i j : Int)],
           [(qLookup st h.uid (i - 1) (j - 1) : Int), -(qLookup st h.uid i j : Int)],
           [-y, -(qLookup st h.uid (i - 1) (j - 1) : Int), (qLookup st h.uid i j : Int)]]
        else
          [[-y, -(qLookup st h.uid (i - 1) (j - 1) : Int), (qLookup st h.uid i j : Int)],
           [y, -(qLookup st h.uid (i - 1) j : Int), (qLookup st h.uid i j : Int)],
           [y, (qLookup st h.uid (i - 1) j : Int), -(qLookup st h.uid i j : Int)],
           [-y, (qLookup st h.uid (i - 1) (j - 1) : Int), -(qLookup st h.uid i j : Int)]])) ++
    (if h.capacity + 1 ≤ i then [[-(qLookup st h.uid i (h.capacity + 1) : Int)]]
     else [])
  emit st cls

def phaseQ (I : ProblemInstance) (st : EncState) : EncState :=
  I.hospitals.foldl (fun st h =>
    (List.range h.prefs.length).foldl (fun st i0 =>
      qEmitLevel h (i0 + 1) (qAllocLevel h (i0 + 1) st)) st) st

def phaseCpref (I : ProblemInstance) (st : EncState) : EncState :=
  I.couples.foldl (fun st c =>
    let st := (List.range c.pairs.length).foldl (fun st k =>
      let p := c.pairs.getD k (0, 0)
      let st := allocWith st (.cpn c.uid k) (fun st v =>
        { st with cpTab := ((c.uid, k), v) :: st.cpTab })
      emit st
        (if k = 0 then
          [[-(cpLookup st c.uid 0 : Int), (rmLookup st c.r0 p.1 : Int)],
           [-(cpLookup st c.uid 0 : Int), (rmLookup st c.r1 p.2 : Int)],
           [(cpLookup st c.uid 0 : Int), -(rmLookup st c.r0 p.1 : Int),
             -(rmLookup st c.r1 p.2 : Int)]]
        else
          [[-(cpLookup st c.uid k : Int), (cpLookup st c.uid (k - 1) : Int),
             (rmLookup st c.r0 p.1 : Int)],
           [-(cpLookup st c.uid k : Int), (cpLookup st c.uid (k - 1) : Int),
             (rmLookup st c.r1 p.2 : Int)],
           [(cpLookup st c.uid k : Int), -(cpLookup st c.uid (k - 1) : Int)],
           [(cpLookup st c.uid k : Int), -(rmLookup st c.r0 p.1 : Int),
             -(rmLookup st c.r1 p.2 : Int)]])) st
    let n := c.pairs.length
    let st := allocWith st (.cpn c.uid n) (fun st v =>
      { st with cpTab := ((c.uid, n), v) :: st.cpTab })
    emit st
      [[-(cpLookup st c.uid n : Int), (cpLookup st c.uid (n - 1) : Int),
         (rmLookup st c.r0 NIL_UID : Int)],
       [-(cpLookup st c.uid n : Int), (cpLookup st c.uid (n - 1) : Int),
         (rmLookup st c.r1 NIL_UID : Int)],
       [(cpLookup st c.uid n : Int), -(cpLookup st c.uid (n - 1) : Int)],
       [(cpLookup st c.uid n : Int), -(rmLookup st c.r0 NIL_UID : Int),
         -(rmLookup st c.r1 NIL_UID : Int)]]) st

def phaseBigOr (I : ProblemInstance) (st : EncState) : EncState :=
  I.couples.foldl (fun st c =>
    emit st [(List.range (c.pairs.length + 1)).map
      (fun k => (cpLookup st c.uid k : Int))]) st

/-- `append_q_vars` over concrete variable numbers. -/
def appendQInt (st : EncState) (base : List Int)
    (qvars : List (Hospital × Nat × Nat)) : List Int :=
  base ++ qvars.filterMap (fun t =>
    if t.1.uid = NIL_UID then none
    else if t.2.2 ≤ rankIn t.1.prefs t.2.1 then
      some ((qLookup st t.1.uid (rankIn t.1.prefs t.2.1) t.2.2 : Int))
    else none)

def phaseStabSingles (I : ProblemInstance) (st : EncState) : EncState :=
  I.singles.foldl (fun st s =>
    s.prefs.foldl (fun st hu =>
      let h := hospOf I hu
      emit st [appendQInt st
        ((weaklyList s.prefs hu).map (fun hu2 => (rmLookup st s.uid hu2 : Int)))
        [(h, s.uid, h.capacity)]]) st) st

def phaseStabCoupleSingle (I : ProblemInstance) (st : EncState) : EncState :=
  I.couples.foldl (fun st c =>
    let st := (List.range c.pairs.length).foldl (fun st n =>
      let p := c.pairs.getD n (0, 0)
      let h0 := hospOf I p.1
      let h1 := hospOf I p.2
      let rm0 : Int := (rmLookup st c.r0 p.1 : Int)
      let rm1 : Int := (rmLookup st c.r1 p.2 : Int)
      let cpn : Int := (cpLookup st c.uid n : Int)
      emit st
        (if h0.uid ≠ h1.uid then
          [appendQInt st [-rm1, cpn] [(h0, c.r0, h0.capacity)],
           appendQInt st [-rm0, cpn] [(h1, c.r1, h1.capacity)]]
        else if rankIn h0.prefs c.r0 < rankIn h0.prefs c.r1 then
          [appendQInt st [-rm1, cpn]
             [(h0, c.r0, h0.capacity), (h1, c.r1, h1.capacity - 1)],
           appendQInt st [-rm0, cpn] [(h1, c.r1, h1.capacity)]]
        else
          [appendQInt st [-rm1, cpn] [(h0, c.r0, h0.capacity)],
           appendQInt st [-rm0, cpn]
             [(h0, c.r0, h0.capacity - 1), (h1, c.r1, h1.capacity)]])) st
    emit st
      [[-(rmLookup st c.r0 NIL_UID : Int), (cpLookup st c.uid c.pairs.length : Int)],
       [-(rmLookup st c.r1 NIL_UID : Int), (cpLookup st c.uid c.pairs.length : Int)]]) st

def phaseStabCoupleDouble (I : ProblemInstance) (st : EncState) : EncState :=
  I.couples.foldl (fun st c =>
    let st := (List.range c.pairs.length).foldl (fun st n =>
      let p := c.pairs.getD n (0, 0)
      let h0 := hospOf I p.1
      let h1 := hospOf I p.2
      emit st
        (if h0.capacity = 0 ∨ h1.capacity = 0 then []
        else if h0.uid ≠ h1.uid then
          [appendQInt st
            [(rmLookup st c.r0 p.1 : Int), (rmLookup st c.r1 p.2 : Int),
              (cpLookup st c.uid n : Int)]
            [(h0, c.r0, h0.capacity), (h1, c.r1, h1.capacity)]]
        else if h0.capacity = 1 then []
        else
          [appendQInt st
            [(rmLookup st c.r0 p.1 : Int), (rmLookup st c.r1 p.2 : Int),
              (cpLookup st c.uid n : Int)]
            [(h0, c.r0, h0.capacity), (h1, c.r1, h1.capacity),
              (h0, c.r0, h0.capacity - 1), (h1, c.r1, h1.capacity - 1)]])) st
    emit st
      [[(rmLookup st c.r0 NIL_UID : Int), (rmLookup st c.r1 NIL_UID : Int),
        (cpLookup st c.uid c.pairs.length : Int)]]) st

/-- The whole of `solve_sat`'s variable allocation and clause generation
(lines 822-1090), phases in source order. -/
def solveSatState (I : ProblemInstance) : EncState :=
  phaseStabCoupleDouble I (phaseStabCoupleSingle I (phaseStabSingles I
    (phaseBigOr I (phaseCpref I (phaseQ I (phaseAmoCouples I
      (phaseAmoSingles I (phaseAloCouples I
        (phaseAloSingles I ⟨0, [], [], [], [], []⟩)))))))))

def solveSatClauses (I : ProblemInstance) : List (List Int) :=
  (solveSatState I).clauses


/-- Evaluation of a DIMACS literal / clause list over an assignment of
the integer variables. -/
def intLitEval (σA : Nat → Bool) (l : Int) : Bool :=
  if 0 < l then σA l.toNat else !(σA (-l).toNat)

def intAllSat (σA : Nat → Bool) (cs : List (List Int)) : Bool :=
  cs.all (fun c => c.any (intLitEval σA))

/-- Python dict assignment on an association list. -/
def dictSet (m : List (Nat × Nat)) (k v : Nat) : List (Nat × Nat) :=
  if m.any (fun e => e.1 == k) then
    m.map (fun e => if e.1 == k then (k, v) else e)
  else m ++ [(k, v)]

/-- The solution decoder (lines 1197-1215): scan the model's literals in
ascending variable order (the order of the registry); each positive
`xr_...`/`xc_...` variable assigns its resident; singles missing from
the result default to nil. -/
def decodeRegistry (σA : Nat → Bool) (st : EncState) (I : ProblemInstance) :
    List (Nat × Nat) :=
  let m := st.registry.foldl (fun acc e =>
    if σA e.1 then
      match e.2 with
      | .xr r h => dictSet acc r h
      | .xc _ r h => dictSet acc r h
      | _ => acc
    else acc) []
  I.singles.foldl (fun acc s =>
    if acc.any (fun e => e.1 == s.uid) then acc
    else acc ++ [(s.uid, NIL_UID)]) m

/-! ## The MIP encoder (`ProblemInstance.solve_mip`) and the two
verify-mode evaluators (claim C6)

`smp_c.py` lines 484-786 and `cplex_py.py`.  Only the data the
verify-mode evaluator consults is modelled: the variable of each term
(`x_<r>,<h>`, `x_<c>,<a>,<b>`, `alpha_<r>,<h>`, distinguished in the
source by prefix and comma count), its optional coefficient (all
coefficients the encoder builds are integer-valued floats, modelled as
`Int`), the constraint kind, and the right-hand side.  Auto-generated
constraint names (`c<k>`) are not modelled: `eval_cplex_constraint`
never reads them. -/

inductive MVar where
  | x1 (r h : Nat)
  | x2 (c a b : Nat)
  | alpha (r h : Nat)
  deriving Repr, DecidableEq

structure MTerm where
  coeff : Option Int
  mvar : MVar
  deriving Repr, DecidableEq

inductive MConstraint where
  | eqC (var_side : List MTerm) (const_side : Int)
  | leC (var_side : List MTerm) (const_side : Int)
  deriving Repr, DecidableEq

/-- `expand_match_var(resident, h, coeff)`: the single's own variable,
or every joint variable of the member's couple whose relevant coordinate
is `h`. -/
def expandMatchVar (I : ProblemInstance) (coeff : Int) (r hu : Nat) :
    List MTerm :=
  match I.couples.find? (fun c => c.r0 = r || c.r1 = r) with
  | some c =>
      if c.r0 = r then
        (c.pairs.filter (fun q => q.1 == hu)).map
          (fun q => ⟨some coeff, .x2 c.uid q.1 q.2⟩)
      else
        (c.pairs.filter (fun q => q.2 == hu)).map
          (fun q => ⟨some coeff, .x2 c.uid q.1 q.2⟩)
  | none => [⟨some coeff, .x1 r hu⟩]

/-- `h.get_all_weakly_preferred(r)` where `h` may be the nil hospital
(whose override returns the empty list). -/
def weaklyPrefH (I : ProblemInstance) (hu r : Nat) : List Nat :=
  if hu = NIL_UID then [] else weaklyList (hospOf I hu).prefs r

/-- `couple.get_all_weakly_preferred(pair, [])`: with no fixed indices
every earlier pair is suitable, so this is the prefix of the joint list
up to and including `pair`. -/
def jointWeaklyPref : List (Nat × Nat) → (Nat × Nat) → List (Nat × Nat)
  | [], _ => []
  | a :: rest, p => if a = p then [a] else a :: jointWeaklyPref rest p

/-- (M1) single match constraints (lines 505-510). -/
def mipMatchingSingles (I : ProblemInstance) : List MConstraint :=
  I.singles.map (fun s =>
    .eqC ((s.prefs ++ [NIL_UID]).map (fun hu => ⟨none, .x1 s.uid hu⟩)) 1)

/-- (M2) couple match constraints (lines 511-517). -/
def mipMatchingCouples (I : ProblemInstance) : List MConstraint :=
  I.couples.map (fun c =>
    .eqC ((c.pairs ++ [(NIL_UID, NIL_UID)]).map
      (fun q => ⟨none, .x2 c.uid q.1 q.2⟩)) 1)

/-- (M3) capacity constraints (lines 518-524); hospitals with an empty
list get none. -/
def mipCapacity (I : ProblemInstance) : List MConstraint :=
  I.hospitals.filterMap (fun h =>
    if h.prefs.isEmpty then none
    else some (.leC (h.prefs.flatMap (fun r => expandMatchVar I 1 r h.uid))
      (h.capacity : Int)))

/-- (S1) single-stability constraints (lines 527-538). -/
def mipStabSingles (I : ProblemInstance) : List MConstraint :=
  I.singles.flatMap (fun s =>
    s.prefs.map (fun hu =>
      let h := hospOf I hu
      .leC ((weaklyPrefH I hu s.uid).flatMap
          (fun rp => expandMatchVar I (-1) rp hu) ++
        (weaklyList s.prefs hu).map
          (fun hu2 => ⟨some (-(h.capacity : Int)), .x1 s.uid hu2⟩))
        (-(h.capacity : Int))))

/-- (S2) couple single-member-switch constraints (lines 540-617),
including the two nil-switch constraints per couple. -/
def mipS2 (I : ProblemInstance) : List MConstraint :=
  I.couples.flatMap (fun c =>
    ((List.range c.pairs.length).flatMap (fun n =>
      let p := c.pairs.getD n (0, 0)
      let h0 := hospOf I p.1
      let h1 := hospOf I p.2
      let cap0 : Int := (h0.capacity : Int)
      let cap1 : Int := (h1.capacity : Int)
      let wj0 := (jointWeaklyPref c.pairs p).map
        (fun q => (⟨some (-cap0), .x2 c.uid q.1 q.2⟩ : MTerm))
      let wj1 := (jointWeaklyPref c.pairs p).map
        (fun q => (⟨some (-cap1), .x2 c.uid q.1 q.2⟩ : MTerm))
      if h0.uid ≠ h1.uid then
        [.leC (wj0 ++
            (weaklyPrefH I p.1 c.r0).flatMap
              (fun rp => expandMatchVar I (-1) rp p.1) ++
            expandMatchVar I cap0 c.r1 p.2) 0,
         .leC (wj1 ++
            (weaklyPrefH I p.2 c.r1).flatMap
              (fun rp => expandMatchVar I (-1) rp p.2) ++
            expandMatchVar I cap1 c.r0 p.1) 0]
      else if rankIn h0.prefs c.r0 < rankIn h0.prefs c.r1 then
        -- both constraints use the occupants weakly preferred to r1
        [.leC (wj0 ++
            (weaklyPrefH I p.2 c.r1).flatMap
              (fun rp => expandMatchVar I (-1) rp p.2) ++
            expandMatchVar I cap0 c.r1 p.2) 0,
         .leC (wj1 ++
            (weaklyPrefH I p.2 c.r1).flatMap
              (fun rp => expandMatchVar I (-1) rp p.2) ++
            expandMatchVar I cap1 c.r0 p.1) 0]
      else
        -- both constraints use the occupants weakly preferred to r0
        [.leC (wj0 ++
            (weaklyPrefH I p.1 c.r0).flatMap
              (fun rp => expandMatchVar I (-1) rp p.1) ++
            expandMatchVar I cap0 c.r1 p.2) 0,
         .leC (wj1 ++
            (weaklyPrefH I p.1 c.r0).flatMap
              (fun rp => expandMatchVar I (-1) rp p.1) ++
            expandMatchVar I cap1 c.r0 p.1) 0]) ++
    [.leC ((c.pairs ++ [(NIL_UID, NIL_UID)]).map
        (fun q => (⟨some (-1), .x2 c.uid q.1 q.2⟩ : MTerm)) ++
        expandMatchVar I 1 c.r1 NIL_UID) 0,
     .leC ((c.pairs ++ [(NIL_UID, NIL_UID)]).map
        (fun q => (⟨some (-1), .x2 c.uid q.1 q.2⟩ : MTerm)) ++
        expandMatchVar I 1 c.r0 NIL_UID) 0]))

/-- (S3) alpha-definition constraints of one couple (lines 625-642),
with the `generated_alphas` bookkeeping. -/
def mipS3Alphas (I : ProblemInstance) (c : Couple) :
    List MConstraint × List (Nat × Nat) :=
  c.pairs.foldl (fun acc q =>
    let h0 := hospOf I q.1
    let h1 := hospOf I q.2
    if h0.capacity ≤ 1 ∨ q.1 = NIL_UID ∨ h1.capacity ≤ 1 ∨ q.2 = NIL_UID ∨
        (c.r1, q.2) ∈ acc.2 ∨ (c.r0, q.1) ∈ acc.2 then acc
    else
      (acc.1 ++ [.leC ((weaklyPrefH I q.2 c.r1).flatMap
          (fun rp => expandMatchVar I (-1) rp q.2) ++
        [⟨some (h1.capacity : Int), .alpha c.r1 q.2⟩]) 0],
       acc.2 ++ [(c.r1, q.2)])) ([], [])

/-- (S3) double-switch constraints of one couple (lines 643-708).  The
source's final `else` raises `'should never get here'`; with capacities
positive it is unreachable, and is modelled as emitting nothing. -/
def mipS3Pairs (I : ProblemInstance) (c : Couple) : List MConstraint :=
  (List.range c.pairs.length).flatMap (fun n =>
    let p := c.pairs.getD n (0, 0)
    let h0 := hospOf I p.1
    let h1 := hospOf I p.2
    let cap0 : Int := (h0.capacity : Int)
    let cap1 : Int := (h1.capacity : Int)
    if h0.capacity = 0 ∨ h1.capacity = 0 then []
    else if h0.uid ≠ h1.uid then
      if h1.uid ≠ NIL_UID ∧ 1 < h1.capacity ∧ h0.uid ≠ NIL_UID ∧
          1 < h0.capacity then
        [.leC (expandMatchVar I (-cap0) c.r0 p.1 ++
          expandMatchVar I (-cap0) c.r1 p.2 ++
          (jointWeaklyPref c.pairs p).map
            (fun q => (⟨some (-cap0), .x2 c.uid q.1 q.2⟩ : MTerm)) ++
          (weaklyPrefH I p.1 c.r0).flatMap
            (fun rp => expandMatchVar I (-1) rp p.1) ++
          [⟨some (-cap0), .alpha c.r1 p.2⟩]) (-cap0)]
      else if h1.uid = NIL_UID ∨ h1.capacity = 1 then
        [.leC (expandMatchVar I (-cap0) c.r0 p.1 ++
          expandMatchVar I (-cap0) c.r1 p.2 ++
          (jointWeaklyPref c.pairs p).map
            (fun q => (⟨some (-cap0), .x2 c.uid q.1 q.2⟩ : MTerm)) ++
          (weaklyPrefH I p.1 c.r0).flatMap
            (fun rp => expandMatchVar I (-1) rp p.1) ++
          (weaklyPrefH I p.2 c.r1).flatMap
            (fun rp => expandMatchVar I (-cap0) rp p.2)) (-cap0)]
      else if h0.uid = NIL_UID ∨ h0.capacity = 1 then
        [.leC (expandMatchVar I (-cap1) c.r0 p.1 ++
          expandMatchVar I (-cap1) c.r1 p.2 ++
          (jointWeaklyPref c.pairs p).map
            (fun q => (⟨some (-cap1), .x2 c.uid q.1 q.2⟩ : MTerm)) ++
          (weaklyPrefH I p.2 c.r1).flatMap
            (fun rp => expandMatchVar I (-1) rp p.2) ++
          (weaklyPrefH I p.1 c.r0).flatMap
            (fun rp => expandMatchVar I (-cap1) rp p.1)) (-cap1)]
      else []
    else
      if h0.capacity = 1 then []
      else
        [.leC (expandMatchVar I (-cap0) c.r0 p.1 ++
          expandMatchVar I (-cap0) c.r1 p.2 ++
          (jointWeaklyPref c.pairs p).map
            (fun q => (⟨some (-cap0), .x2 c.uid q.1 q.2⟩ : MTerm)) ++
          (if rankIn h0.prefs c.r0 < rankIn h0.prefs c.r1 then
            (weaklyPrefH I p.2 c.r1).flatMap
              (fun rp => expandMatchVar I (-1) rp p.2)
          else
            -- the source iterates h1's weakly-preferred list for r0 but
            -- expands through h0 (h0 == h1 here)
            (weaklyPrefH I p.2 c.r0).flatMap
              (fun rp => expandMatchVar I (-1) rp p.1))) (-cap0 + 1)])

def mipConstraints (I : ProblemInstance) : List MConstraint :=
  mipMatchingSingles I ++ mipMatchingCouples I ++ mipCapacity I ++
  mipStabSingles I ++ mipS2 I ++
  I.couples.flatMap (fun c => (mipS3Alphas I c).1 ++ mipS3Pairs I c)

/-! ### The MIP verify-mode evaluator (lines 709-762) -/

def dictLookup (m : List (Nat × Nat)) (k : Nat) : Option Nat :=
  (m.find? (fun e => e.1 == k)).map Prod.snd

/-- The matching parsed from `r <uid> <h>` lines (`-1` denotes nil). -/
def rMatchOfEntries (entries : List (Nat × Int)) : List (Nat × Nat) :=
  entries.foldl (fun acc e =>
    dictSet acc e.1 (if e.2 = -1 then NIL_UID else e.2.toNat)) []

def isAlphaTerm (t : MTerm) : Bool :=
  match t.mvar with
  | .alpha _ _ => true
  | _ => false

/-- The value of one variable under the parsed matching.  `none` models
the `KeyError` raised for a resident absent from the matching file. -/
def mvarVal (I : ProblemInstance) (rmatch : List (Nat × Nat)) (v : MVar) :
    Option Int :=
  match v with
  | .x1 r h => (dictLookup rmatch r).map (fun hv => if hv = h then 1 else 0)
  | .x2 cu a b =>
      match I.couples.find? (fun c => c.uid = cu) with
      | none => none
      | some c => do
          let v0 ← dictLookup rmatch c.r0
          let v1 ← dictLookup rmatch c.r1
          pure (if v0 = a ∧ v1 = b then 1 else 0)
  | .alpha _ _ => none

/-- `eval_cplex_constraint`: a constraint containing an `alpha` variable
is short-circuited to satisfied; otherwise the left side is summed
(an absent coefficient counts as 1) and compared to the right side. -/
def evalConstraint (I : ProblemInstance) (rmatch : List (Nat × Nat))
    (con : MConstraint) : Option Bool :=
  let ts := match con with
    | .eqC t _ => t
    | .leC t _ => t
  if ts.any isAlphaTerm then some true
  else do
    let total ← ts.foldlM (fun acc t => do
      let v ← mvarVal I rmatch t.mvar
      pure (acc + (t.coeff.getD 1) * v)) (0 : Int)
    pure (match con with
      | .eqC _ cs => total == cs
      | .leC _ cs => decide (total ≤ cs))

/-- The MIP verify mode: evaluate every generated constraint under the
matching, collecting the violated ones (`none` models a raised
`KeyError`). -/
def mipVerify (I : ProblemInstance) (entries : List (Nat × Int)) :
    Option (List MConstraint) :=
  let rmatch := rMatchOfEntries entries
  (mipConstraints I).foldl (fun acc con => do
    let vs ← acc
    let b ← evalConstraint I rmatch con
    pure (if b then vs else vs ++ [con])) (some [])

/-! ### The SAT verify-mode evaluator (lines 1096-1163)

The source's own comment: a "lazy" implementation that only works in the
one-to-one case — it asserts that no hospital receives two residents. -/

inductive VerifyErr where
  | missingHospital
  | duplicateHospital
  deriving Repr, DecidableEq

structure VerifyState where
  valueTrue : List Nat
  hHash : List Nat
  rMatch : List (Nat × Nat)
  deriving Repr, DecidableEq

/-- The `q` variables set true while walking hospital `h`'s preference
order for its (single) assigned resident `r` (lines 1113-1123). -/
def satVerifyQWalk (st : EncState) (h : Hospital) (r : Nat) : List Nat :=
  ((List.range h.prefs.length).foldl (fun (acc : List Nat × Bool) i0 =>
    let i := i0 + 1
    if h.prefs.getD (i - 1) 0 == r then (acc.1 ++ [qLookup st h.uid i 1], true)
    else if acc.2 then (acc.1 ++ [qLookup st h.uid i 1], acc.2)
    else (acc.1 ++ [qLookup st h.uid i 0], acc.2)) ([], false)).1

/-- The per-line loop of the SAT verify mode (lines 1102-1123):
`hospital_dict[-1]` raises (`missingHospital`), and
`assert not h in h_hash` fails on a hospital assigned twice
(`duplicateHospital`). -/
def satVerifyEntries (I : ProblemInstance) (st : EncState) :
    List (Nat × Int) → VerifyState → Except VerifyErr VerifyState
  | [], vs => .ok vs
  | e :: rest, vs =>
      if e.2 < 0 then .error .missingHospital
      else
        let huid := e.2.toNat
        if huid ≠ NIL_UID ∧ ¬ hospExists I huid then .error .missingHospital
        else
          let vs1 : VerifyState :=
            { vs with
                valueTrue := vs.valueTrue ++ [rmLookup st e.1 huid],
                rMatch := dictSet vs.rMatch e.1 huid }
          if huid = NIL_UID then satVerifyEntries I st rest vs1
          else if huid ∈ vs1.hHash then .error .duplicateHospital
          else
            satVerifyEntries I st rest
              { vs1 with
                  hHash := vs1.hHash ++ [huid],
                  valueTrue := vs1.valueTrue ++
                    satVerifyQWalk st (hospOf I huid) e.1 }

/-- The full SAT verify value assignment (lines 1098-1147): process the
matching file, then give unassigned hospitals all-zero counters, then
the couples' nil defaults and the `cpref` walk. -/
def satVerifyBuild (I : ProblemInstance) (entries : List (Nat × Int)) :
    Except VerifyErr (List Nat) := do
  let st := solveSatState I
  let vs ← satVerifyEntries I st entries ⟨[], [], []⟩
  let vs := I.hospitals.foldl (fun vs h =>
    if h.uid ∈ vs.hHash then vs
    else { vs with valueTrue := vs.valueTrue ++
      (List.range h.prefs.length).map (fun i0 => qLookup st h.uid (i0 + 1) 0) }) vs
  let vs := I.couples.foldl (fun vs c =>
    let vs := if (vs.rMatch.find? (fun e => e.1 == c.r0)).isSome then vs
      else { vs with
               rMatch := dictSet vs.rMatch c.r0 NIL_UID,
               valueTrue := vs.valueTrue ++ [rmLookup st c.r0 NIL_UID] }
    let vs := if (vs.rMatch.find? (fun e => e.1 == c.r1)).isSome then vs
      else { vs with
               rMatch := dictSet vs.rMatch c.r1 NIL_UID,
               valueTrue := vs.valueTrue ++ [rmLookup st c.r1 NIL_UID] }
    let cpl := ((List.range c.pairs.length).foldl
      (fun (acc : List Nat × Bool) n =>
        let p := c.pairs.getD n (0, 0)
        let found := acc.2 || (dictLookup vs.rMatch c.r0 == some p.1 &&
          dictLookup vs.rMatch c.r1 == some p.2)
        (if found then acc.1 ++ [cpLookup st c.uid n] else acc.1, found))
      ([], false)).1
    { vs with valueTrue := vs.valueTrue ++ cpl ++
        [cpLookup st c.uid c.pairs.length] }) vs
  pure vs.valueTrue

/-- `eval_str_clause`: a clause holds when some positive literal is in
the value dictionary or some negative literal is not. -/
def satVerifyClauseOk (vals : List Nat) (cl : List Int) : Bool :=
  cl.any (fun l => if 0 < l then vals.contains l.toNat
    else !(vals.contains (-l).toNat))

/-- The SAT verify mode end to end: build the values, then evaluate
every emitted clause. -/
def satVerifyOk (I : ProblemInstance) (entries : List (Nat × Int)) :
    Except VerifyErr Bool := do
  let vals ← satVerifyBuild I entries
  pure ((solveSatClauses I).all (satVerifyClauseOk vals))

/-- C6 instance: hospital 3 with capacity 2 ranking residents 1 and 2,
two singles both ranking hospital 3. -/
def I6 : ProblemInstance := ⟨[⟨3, 2, [1, 2]⟩], [⟨1, [3]⟩, ⟨2, [3]⟩], []⟩

/-- The matching file assigning both residents to hospital 3 (its
capacity allows it; the matching is stable). -/
def entries6 : List (Nat × Int) := [(1, 3), (2, 3)]

/-- The matching of `entries6` as a map. -/
def m6fun : Nat → Nat := fun r =>
  (dictLookup (rMatchOfEntries entries6) r).getD NIL_UID

instance decFullUpTo (I : ProblemInstance) (m : Nat → Nat) (hu r n : Nat) :
    Decidable (fullUpTo I m hu r n) :=
  inferInstanceAs (Decidable
    ((((hospOf I hu).prefs.take (rankIn (hospOf I hu).prefs r)).countP
      (fun x => m x == hu)) = n))

instance decSinglesStable (I : ProblemInstance) (m : Nat → Nat) :
    Decidable (SinglesStable I m) :=
  inferInstanceAs (Decidable (∀ s ∈ I.singles, ∀ hu ∈ s.prefs,
    (m s.uid = NIL_UID ∨ rankIn s.prefs hu < rankIn s.prefs (m s.uid)) →
    fullUpTo I m hu s.uid (hospOf I hu).capacity))

/-- The counterexample instance: hospitals 1 and 3 (capacity 1, ranking
residents 2 and 4 respectively); couple 5 = (2, 4) ranks (1, 3) first
and (1, nil) second — member 4's projected ranked list contains the nil
hospital, so member 4's nil column is allocated twice. -/
def Icx : ProblemInstance :=
  ⟨[⟨1, 1, [2]⟩, ⟨3, 1, [4]⟩], [], [⟨5, 2, 4, [(1, 3), (1, NIL_UID)]⟩]⟩

/-- A satisfying total assignment for the clauses of `Icx`: the couple
is matched to its rank-0 pair (1, 3); variable 4 — the orphaned first
copy of member 4's nil column, constrained by no clause — is set true. -/
def sigmaCx : Nat → Bool := fun v =>
  [1, 3, 4, 7, 9, 10, 11, 12].contains v

/-- The matching decoded from `sigmaCx` as a map (absent = nil). -/
def mCx : Nat → Nat := fun r =>
  (((decodeRegistry sigmaCx (solveSatState Icx) Icx).find?
      (fun e => e.1 == r)).map Prod.snd).getD NIL_UID

end SMC

/-- Count, in the first `i` residents of `h`'s preference list, those
whose match variable for `h` is true under `σ` (the quantity the
sequential counter tracks). -/
def cntTrue (σ : SMC.Var → Bool) (h : SMC.Hospital) (i : Nat) : Nat :=
  (h.prefs.take i).countP (fun r => σ (.rm r h.uid))

/-! ### Concrete witness instances and assignments -/

namespace SMC

/-- Witness instance: one hospital (uid 1, capacity 1, ranks resident 0),
one single resident (uid 0, ranks hospital 1). -/
def I2 : ProblemInstance := ⟨[⟨1, 1, [0]⟩], [⟨0, [1]⟩], []⟩

/-- A satisfying assignment for `encode I2`: resident 0 matched to
hospital 1. -/
def sigma2 : Var → Bool
  | .rm 0 1 => true
  | .q 1 1 1 => true
  | _ => false

/-- Witness instance with a couple: hospitals 1 and 2 (capacity 1,
ranking members 4 and 5 respectively), couple 6 = (4, 5) with single
ranked pair (1, 2). -/
def I3 : ProblemInstance :=
  ⟨[⟨1, 1, [4]⟩, ⟨2, 1, [5]⟩], [], [⟨6, 4, 5, [(1, 2)]⟩]⟩

/-- A satisfying assignment for `encode I3`: the couple matched to its
rank-0 pair. -/
def sigma3 : Var → Bool
  | .rm 4 1 => true
  | .rm 5 2 => true
  | .q 1 1 1 => true
  | .q 2 1 1 => true
  | .cp 6 0 => true
  | .cp 6 1 => true
  | _ => false

end SMC

/-! # Theorems -/

namespace SMC

/-! ## Generic clause-satisfaction lemmas -/

theorem satAll_append (σ : Var → Bool) (xs ys : List Clause) :
    SatAll σ (xs ++ ys) ↔ SatAll σ xs ∧ SatAll σ ys := by
  constructor
  · intro hs
    exact ⟨fun c hc => hs c (List.mem_append_left _ hc),
      fun c hc => hs c (List.mem_append_right _ hc)⟩
  · rintro ⟨h1, h2⟩ c hc
    rcases List.mem_append.mp hc with hc | hc
    · exact h1 c hc
    · exact h2 c hc

theorem satAll_flatMap {α : Type} (σ : Var → Bool) (l : List α) (f : α → List Clause) :
    SatAll σ (l.flatMap f) ↔ ∀ x ∈ l, SatAll σ (f x) := by
  constructor
  · intro hs x hx c hc
    exact hs c (List.mem_flatMap.mpr ⟨x, hx, hc⟩)
  · intro hs c hc
    rcases List.mem_flatMap.mp hc with ⟨x, hx, hc⟩
    exact hs x hx c hc

theorem satAll_map {α : Type} (σ : Var → Bool) (l : List α) (f : α → Clause) :
    SatAll σ (l.map f) ↔ ∀ x ∈ l, clauseEval σ (f x) = true := by
  constructor
  · intro hs x hx
    exact hs (f x) (List.mem_map_of_mem f hx)
  · intro hs c hc
    rcases List.mem_map.mp hc with ⟨x, hx, rfl⟩
    exact hs x hx

theorem satAll_cons (σ : Var → Bool) (c : Clause) (cs : List Clause) :
    SatAll σ (c :: cs) ↔ clauseEval σ c = true ∧ SatAll σ cs := by
  constructor
  · intro hs
    exact ⟨hs c (List.mem_cons_self c cs), fun d hd => hs d (List.mem_cons_of_mem c hd)⟩
  · rintro ⟨h1, h2⟩ d hd
    rcases List.mem_cons.mp hd with rfl | hd
    · exact h1
    · exact h2 d hd

theorem satAll_nil (σ : Var → Bool) : SatAll σ [] := by
  intro c hc
  simp at hc

theorem litEval_pos (σ : Var → Bool) (v : Var) : litEval σ (pos v) = σ v := rfl

theorem litEval_neg (σ : Var → Bool) (v : Var) : litEval σ (neg v) = !(σ v) := rfl

theorem sat1 {σ : Var → Bool} {a : Lit} (h : clauseEval σ [a] = true) :
    litEval σ a = true := by
  simpa [clauseEval] using h

theorem sat2 {σ : Var → Bool} {a b : Lit} (h : clauseEval σ [a, b] = true) :
    litEval σ a = true ∨ litEval σ b = true := by
  simpa [clauseEval] using h

theorem sat3 {σ : Var → Bool} {a b c : Lit} (h : clauseEval σ [a, b, c] = true) :
    litEval σ a = true ∨ litEval σ b = true ∨ litEval σ c = true := by
  simpa [clauseEval] using h

/-! ## Counting lemmas -/

theorem take_succ_getD (l : List Nat) (i : Nat) (h : i < l.length) :
    l.take (i + 1) = l.take i ++ [l.getD i 0] := by
  induction l generalizing i with
  | nil => simp at h
  | cons a rest ih =>
      cases i with
      | zero => simp
      | succ i =>
          simp only [List.take_succ_cons, List.getD_cons_succ]
          rw [ih i (by simpa using h)]
          simp

theorem cntTrue_succ (σ : Var → Bool) (h : Hospital) (i : Nat)
    (hi : i < h.prefs.length) :
    cntTrue σ h (i + 1) =
      cntTrue σ h i + (if σ (.rm (h.prefs.getD i 0) h.uid) then 1 else 0) := by
  unfold cntTrue
  rw [take_succ_getD _ _ hi, List.countP_append]
  simp [List.countP_cons]

theorem cntTrue_zero (σ : Var → Bool) (h : Hospital) : cntTrue σ h 0 = 0 := rfl

theorem cntTrue_le (σ : Var → Bool) (h : Hospital) (i : Nat) :
    cntTrue σ h i ≤ i := by
  calc cntTrue σ h i ≤ (h.prefs.take i).length := List.countP_le_length _
    _ ≤ i := by simp [List.length_take]

/-! ## Sequential-counter correctness (core of claim C2) -/

theorem q_level_correct (σ : Var → Bool) (h : Hospital)
    (hsat : ∀ i0, i0 < h.prefs.length → SatAll σ (qLevel h (i0 + 1))) :
    ∀ i, 1 ≤ i → i ≤ h.prefs.length →
      ∀ j, j ≤ min i (h.capacity + 1) →
        (σ (.q h.uid i j) = true ↔ cntTrue σ h i = j) := by
  intro i
  induction i with
  | zero => omega
  | succ i ih =>
      intro _ hlen j hj
      by_cases hi0 : i = 0
      · -- base level i+1 = 1
        subst hi0
        have hs := hsat 0 (by omega)
        rw [qLevel] at hs
        rw [if_pos rfl, satAll_append] at hs
        obtain ⟨hsb, -⟩ := hs
        rw [qBase, satAll_cons, satAll_cons, satAll_cons, satAll_cons] at hsb
        obtain ⟨hc1, hc2, hc3, hc4, -⟩ := hsb
        have e1 := sat2 hc1
        have e2 := sat2 hc2
        have e3 := sat2 hc3
        have e4 := sat2 hc4
        simp only [litEval_pos, litEval_neg, Bool.not_eq_true', yVar,
          Nat.sub_self] at e1 e2 e3 e4
        have hcnt : cntTrue σ h 1 =
            (if σ (.rm (h.prefs.getD 0 0) h.uid) then 1 else 0) := by
          rw [cntTrue_succ σ h 0 (by omega), cntTrue_zero]
          omega
        have hj01 : j = 0 ∨ j = 1 := by omega
        clear hsat ih
        rcases hj01 with rfl | rfl
        · rw [hcnt]
          cases hy : σ (.rm (h.prefs.getD 0 0) h.uid) <;>
            cases hq : σ (.q h.uid 1 0) <;> simp_all
        · rw [hcnt]
          cases hy : σ (.rm (h.prefs.getD 0 0) h.uid) <;>
            cases hq : σ (.q h.uid 1 1) <;> simp_all
      · -- step level i+1, with i ≥ 1
        have hi1 : 1 ≤ i := by omega
        have hilen : i ≤ h.prefs.length := by omega
        have hs := hsat i (by omega)
        rw [qLevel] at hs
        rw [if_neg (by omega), satAll_append] at hs
        obtain ⟨hstep, -⟩ := hs
        rw [satAll_flatMap] at hstep
        have hjmem : j ∈ List.range (min (i + 1 + 1) (h.capacity + 2)) := by
          rw [List.mem_range]
          omega
        have hsj := hstep j hjmem
        have hcnt := cntTrue_succ σ h i (by omega)
        have hcle : cntTrue σ h i ≤ i := cntTrue_le σ h i
        rw [qStep] at hsj
        by_cases hj0 : j = 0
        · subst hj0
          rw [if_pos rfl] at hsj
          rw [satAll_cons, satAll_cons, satAll_cons] at hsj
          obtain ⟨hc1, hc2, hc3, -⟩ := hsj
          have e1 := sat2 hc1
          have e2 := sat2 hc2
          have e3 := sat3 hc3
          have ihp := ih hi1 hilen 0 (by omega)
          simp only [litEval_pos, litEval_neg, Bool.not_eq_true', yVar,
            Nat.add_sub_cancel] at e1 e2 e3
          clear hsat ih hstep
          rw [hcnt]
          cases hy : σ (.rm (h.prefs.getD i 0) h.uid) <;>
            cases hq : σ (.q h.uid (i + 1) 0) <;>
            cases hqp : σ (.q h.uid i 0) <;> simp_all <;> omega
        · by_cases hji : j = i + 1
          · subst hji
            rw [if_neg (by omega), if_pos rfl] at hsj
            rw [satAll_cons, satAll_cons, satAll_cons] at hsj
            obtain ⟨hc1, hc2, hc3, -⟩ := hsj
            have e1 := sat2 hc1
            have e2 := sat2 hc2
            have e3 := sat3 hc3
            have ihp := ih hi1 hilen i (by omega)
            simp only [litEval_pos, litEval_neg, Bool.not_eq_true', yVar,
              Nat.add_sub_cancel] at e1 e2 e3
            clear hsat ih hstep
            rw [hcnt]
            cases hy : σ (.rm (h.prefs.getD i 0) h.uid) <;>
              cases hq : σ (.q h.uid (i + 1) (i + 1)) <;>
              cases hqp : σ (.q h.uid i i) <;> simp_all <;> omega
          · -- middle case 1 ≤ j ≤ i
            rw [if_neg hj0, if_neg hji] at hsj
            rw [satAll_cons, satAll_cons, satAll_cons, satAll_cons] at hsj
            obtain ⟨hc1, hc2, hc3, hc4, -⟩ := hsj
            have e1 := sat3 hc1
            have e2 := sat3 hc2
            have e3 := sat3 hc3
            have e4 := sat3 hc4
            have ihp1 := ih hi1 hilen (j - 1) (by omega)
            have ihp2 := ih hi1 hilen j (by omega)
            simp only [litEval_pos, litEval_neg, Bool.not_eq_true', yVar,
              Nat.add_sub_cancel] at e1 e2 e3 e4
            clear hsat ih hstep
            rw [hcnt]
            cases hy : σ (.rm (h.prefs.getD i 0) h.uid) <;>
              cases hq : σ (.q h.uid (i + 1) j) <;>
              cases hqp1 : σ (.q h.uid i (j - 1)) <;>
              cases hqp2 : σ (.q h.uid i j) <;> simp_all <;> omega


/-! ## Claim C7: `ListPreferenceFunction` queries -/

theorem get_all_preferred_of_not_mem (l : List Nat) (uid : Nat) (h : uid ∉ l) :
    get_all_preferred l uid = none := by
  induction l with
  | nil => rfl
  | cons a rest ih =>
      have ha : a ≠ uid := fun e => h (e ▸ List.mem_cons_self a rest)
      have hr : uid ∉ rest := fun e => h (List.mem_cons_of_mem a e)
      simp [get_all_preferred, ha, ih hr]

theorem get_all_preferred_of_get? (l : List Nat) (uid k : Nat)
    (hnd : l.Nodup) (hget : l.get? k = some uid) :
    get_all_preferred l uid = some (l.take k) := by
  induction l generalizing k with
  | nil => simp at hget
  | cons a rest ih =>
      rcases List.nodup_cons.mp hnd with ⟨hnotmem, hndrest⟩
      cases k with
      | zero =>
          simp only [List.get?] at hget
          injection hget with h
          simp [get_all_preferred, h]
      | succ k =>
          simp only [List.get?] at hget
          have hmem : uid ∈ rest := List.get?_mem hget
          have hne : a ≠ uid := fun e => hnotmem (e ▸ hmem)
          simp [get_all_preferred, hne, ih k hndrest hget, List.take_cons]

theorem get_rank_of_get? (l : List Nat) (uid k : Nat)
    (hnd : l.Nodup) (hget : l.get? k = some uid) :
    get_rank l uid = some k := by
  induction l generalizing k with
  | nil => simp at hget
  | cons a rest ih =>
      rcases List.nodup_cons.mp hnd with ⟨hnotmem, hndrest⟩
      cases k with
      | zero =>
          simp only [List.get?] at hget
          injection hget with h
          simp [get_rank, h]
      | succ k =>
          simp only [List.get?] at hget
          have hmem : uid ∈ rest := List.get?_mem hget
          have hne : a ≠ uid := fun e => hnotmem (e ▸ hmem)
          simp [get_rank, hne, ih k hndrest hget]

/-- C7.  For a duplicate-free preference list, `get_rank` of the element at
index `k` is `k`, `get_all_weakly_preferred` returns the `k` strictly
preferred items (most preferred first) followed by the element itself, and
for an element not on the list `get_all_preferred` and
`get_all_weakly_preferred` raise (return `none`) rather than return. -/
theorem listPref_rank_weakly_correct :
    (∀ (l : List Nat) (uid k : Nat), l.Nodup → l.get? k = some uid →
      get_rank l uid = some k ∧
      get_all_preferred l uid = some (l.take k) ∧
      get_all_weakly_preferred l uid = some (l.take k ++ [uid])) ∧
    (∀ (l : List Nat) (uid : Nat), uid ∉ l →
      get_all_preferred l uid = none ∧ get_all_weakly_preferred l uid = none) := by
  constructor
  · intro l uid k hnd hget
    refine ⟨get_rank_of_get? l uid k hnd hget,
      get_all_preferred_of_get? l uid k hnd hget, ?_⟩
    simp [get_all_weakly_preferred, get_all_preferred_of_get? l uid k hnd hget]
  · intro l uid h
    simp [get_all_weakly_preferred, get_all_preferred_of_not_mem l uid h]

/-- Witness for C7 at `l = [5, 3, 9]`, `uid = 3` (index 1) and at the
absent uid `4`. -/
theorem listPref_rank_weakly_correct_witness :
    (get_rank [5, 3, 9] 3 = some 1 ∧
      get_all_preferred [5, 3, 9] 3 = some [5] ∧
      get_all_weakly_preferred [5, 3, 9] 3 = some [5, 3]) ∧
    (get_all_preferred [5, 3, 9] 4 = none ∧
      get_all_weakly_preferred [5, 3, 9] 4 = none) :=
  ⟨listPref_rank_weakly_correct.1 [5, 3, 9] 3 1 (by decide) rfl,
   listPref_rank_weakly_correct.2 [5, 3, 9] 4 (by decide)⟩

/-! ## Claim C10: `Agent` equality and hashing by uid only -/

/-- C10.  `Agent.__eq__` holds exactly when the uids agree, `__hash__` is
the uid itself; consequently two agents with equal uids — whatever their
kinds and other fields — compare equal and have colliding hashes, so they
collide as dictionary keys. -/
theorem agent_eq_hash_by_uid :
    (∀ a b : Agent, Agent.beq a b = true ↔ a.uid = b.uid) ∧
    (∀ a : Agent, Agent.pyHash a = a.uid) ∧
    (∀ a b : Agent, a.uid = b.uid →
      Agent.beq a b = true ∧ Agent.pyHash a = Agent.pyHash b) := by
  refine ⟨fun a b => ?_, fun a => rfl, fun a b h => ?_⟩
  · simp [Agent.beq]
  · simp [Agent.beq, Agent.pyHash, h]

/-- Witness for C10: a resident and a hospital with the same uid 3 compare
equal and hash identically. -/
theorem agent_eq_hash_by_uid_witness :
    Agent.beq ⟨3, .resident, none⟩ ⟨3, .hospital, some 5⟩ = true ∧
    Agent.pyHash ⟨3, .resident, none⟩ = Agent.pyHash ⟨3, .hospital, some 5⟩ :=
  agent_eq_hash_by_uid.2.2 ⟨3, .resident, none⟩ ⟨3, .hospital, some 5⟩ rfl

/-! ## Claim C5: couple ranked-hospital projections -/

theorem pySetList_nodup (xs : List Nat) : (pySetList xs).Nodup :=
  (List.perm_insertionSort (· ≤ ·) xs.dedup).symm.nodup (List.nodup_dedup xs)

theorem pySetList_mem (xs : List Nat) (x : Nat) : x ∈ pySetList xs ↔ x ∈ xs := by
  unfold pySetList
  rw [(List.perm_insertionSort (· ≤ ·) xs.dedup).mem_iff, List.mem_dedup]

/-- C5 counterexample: for the joint pair list `[(2,0),(1,0)]` the code's
`get_ranked_hospitals` for member 0 yields `[1, 2]` (CPython set order),
not the first-occurrence order `[2, 1]` the claim asserts. -/
theorem coupleRanked_not_firstOccurrence :
    Couple.rankedHospitals0 ⟨0, 8, 9, [(2, 0), (1, 0)]⟩ = [1, 2] ∧
    firstDedup ([(2, 0), (1, 0)].map Prod.fst) = [2, 1] ∧
    Couple.rankedHospitals0 ⟨0, 8, 9, [(2, 0), (1, 0)]⟩ ≠
      firstDedup ([(2, 0), (1, 0)].map Prod.fst) := by
  refine ⟨by decide, by decide, by decide⟩

/-- C5 amended: each member's `get_ranked_hospitals` list is the
*deduplicated* projection of the joint pair list onto that member's
coordinate — duplicate-free and containing exactly the projected
hospitals — but in an implementation-defined (hash-table) order rather
than first-occurrence order. -/
theorem coupleRanked_dedup_projection :
    ∀ c : Couple,
      (Couple.rankedHospitals0 c).Nodup ∧
      (∀ x, x ∈ Couple.rankedHospitals0 c ↔ x ∈ c.pairs.map Prod.fst) ∧
      (Couple.rankedHospitals1 c).Nodup ∧
      (∀ x, x ∈ Couple.rankedHospitals1 c ↔ x ∈ c.pairs.map Prod.snd) := by
  intro c
  exact ⟨pySetList_nodup _, fun x => pySetList_mem _ x,
    pySetList_nodup _, fun x => pySetList_mem _ x⟩

/-! ## Claim C4: duplicate-uid rejection in `from_file` -/

/-- C4 (code bug): the duplicate checks in `from_file` test membership in
*local* dictionaries that are never populated (the entity constructors
write the shadowed module-global dictionaries instead), so a file with
two `r` lines carrying the same resident uid — likewise duplicate `p`,
duplicate `c`, or a `c` line reusing a declared resident uid — loads
successfully instead of raising.  Only genuinely unreadable lines raise.
This theorem evaluates the loader on such inputs. -/
theorem from_file_accepts_duplicates :
    from_file [.rline 1 [1], .rline 1 [1]] =
      .ok ⟨[], [⟨1, [1]⟩, ⟨1, [1]⟩], []⟩ ∧
    from_file [.pline 2 1 [1], .pline 2 1 [1]] =
      .ok ⟨[⟨2, 1, [1]⟩, ⟨2, 1, [1]⟩], [], []⟩ ∧
    from_file [.cline 3 4 5 [(1, 1)], .cline 3 4 5 [(1, 1)]] =
      .ok ⟨[], [], [⟨3, 4, 5, [(1, 1)]⟩, ⟨3, 4, 5, [(1, 1)]⟩]⟩ ∧
    from_file [.rline 1 [1], .cline 3 1 5 [(1, 1)]] =
      .ok ⟨[], [⟨1, [1]⟩], [⟨3, 1, 5, [(1, 1)]⟩]⟩ ∧
    from_file [.unreadable] = .error "line not readable" :=
  ⟨rfl, rfl, rfl, rfl, rfl⟩

/-! ## Claim C8: the DIMACS clause buffer -/

theorem bufferAppend_content (st : BufferState) (c : List Int) :
    (bufferAppend st c).fileLines ++
      ((bufferAppend st c).buffer_list).map renderClause =
    st.fileLines ++ st.buffer_list.map renderClause ++ [renderClause c] := by
  unfold bufferAppend
  split <;> simp

theorem bufferAppend_len (st : BufferState) (c : List Int)
    (h : st.buffer_list.length ≤ bufferSize) :
    (bufferAppend st c).buffer_list.length ≤ bufferSize := by
  unfold bufferAppend
  split
  · next hlt => simpa using hlt
  · simp

theorem bufferFold_content (cs : List (List Int)) (st : BufferState) :
    (cs.foldl bufferAppend st).fileLines ++
      ((cs.foldl bufferAppend st).buffer_list).map renderClause =
    st.fileLines ++ st.buffer_list.map renderClause ++ cs.map renderClause := by
  induction cs generalizing st with
  | nil => simp
  | cons c rest ih =>
      simp only [List.foldl_cons, List.map_cons]
      rw [ih (bufferAppend st c), bufferAppend_content]
      simp

theorem bufferFold_len (cs : List (List Int)) (st : BufferState)
    (h : st.buffer_list.length ≤ bufferSize) :
    (cs.foldl bufferAppend st).buffer_list.length ≤ bufferSize := by
  induction cs generalizing st with
  | nil => exact h
  | cons c rest ih => exact ih _ (bufferAppend_len st c h)

theorem directWrite_fold (cs : List (List Int)) (acc : List String) :
    cs.foldl directWrite acc = acc ++ cs.map renderClause := by
  induction cs generalizing acc with
  | nil => simp
  | cons c rest ih => simp [directWrite, ih]

/-- C8.  After appending any sequence of clauses and flushing, the backing
file holds exactly the renders of the appended clauses, one line each, in
append order — the same contents the unbuffered direct writer produces;
each render is the space-separated literals terminated by `' 0'`; the
in-memory window never exceeds 5,000 clauses; and creation truncates the
file. -/
theorem constraintsBuffer_spec :
    ∀ cs : List (List Int),
      (bufferFlush (cs.foldl bufferAppend bufferCreate)).fileLines =
        cs.map renderClause ∧
      (bufferFlush (cs.foldl bufferAppend bufferCreate)).fileLines =
        cs.foldl directWrite [] ∧
      (∀ c : List Int, renderClause c =
        String.intercalate " " (c.map toString) ++ " 0") ∧
      (cs.foldl bufferAppend bufferCreate).buffer_list.length ≤ bufferSize ∧
      bufferCreate.fileLines = [] := by
  intro cs
  have hcontent := bufferFold_content cs bufferCreate
  simp only [bufferCreate, List.map_nil, List.append_nil, List.nil_append] at hcontent
  refine ⟨?_, ?_, fun c => rfl, bufferFold_len cs bufferCreate (by simp [bufferCreate]), rfl⟩
  · simpa [bufferFlush] using hcontent
  · rw [directWrite_fold]
    simpa [bufferFlush] using hcontent

/-! ## Claim C9: `print_matching` output format -/

theorem print_matching_fold (m : List (Nat × Nat)) (acc : List String) :
    m.foldl (fun a p => a ++ [matchLineStr p]) acc = acc ++ m.map matchLineStr := by
  induction m generalizing acc with
  | nil => simp
  | cons p rest ih => simp [ih]

/-- C9.  `print_matching` writes `'m 0'` (after the optional header
comment) and no resident lines for an empty matching; otherwise `'m 1'`
followed by exactly one line per matching entry in order, each
`'r <uid> <hospital_uid>'` with the nil hospital rendered as `-1`; a
supplied header yields a single leading `#` comment line. -/
theorem print_matching_format :
    ∀ (matching : List (Nat × Nat)) (header : Option String),
      (matching = [] →
        print_matching matching header =
          (match header with | some s => ["# " ++ s] | none => []) ++ ["m 0"]) ∧
      (matching ≠ [] →
        print_matching matching header =
          (match header with | some s => ["# " ++ s] | none => []) ++
            "m 1" :: matching.map matchLineStr) ∧
      (∀ r h, matchLineStr (r, h) =
        if h = NIL_UID then "r " ++ toString r ++ " -1"
        else "r " ++ toString r ++ " " ++ toString h) ∧
      (∀ s, header = some s →
        (print_matching matching header).head? = some ("# " ++ s)) := by
  intro matching header
  refine ⟨?_, ?_, fun r h => rfl, ?_⟩
  · rintro rfl
    simp [print_matching]
  · intro hne
    have hlen : ¬ matching.length = 0 := by
      simpa [List.length_eq_zero] using hne
    simp only [print_matching, hlen, if_false, print_matching_fold]
    simp
  · rintro s rfl
    cases matching with
    | nil => simp [print_matching]
    | cons p rest =>
        simp only [print_matching, List.length_cons]
        rw [if_neg (by simp), print_matching_fold]
        simp

/-- Witness for C9 at an empty matching with header, and at a two-entry
matching (one nil assignment) without header. -/
theorem print_matching_format_witness :
    print_matching [] (some "h") = ["# h", "m 0"] ∧
    print_matching [(1, 2), (3, NIL_UID)] none = ["m 1", "r 1 2", "r 3 -1"] := by
  constructor
  · rw [(print_matching_format [] (some "h")).1 rfl]
    rfl
  · rw [(print_matching_format [(1, 2), (3, NIL_UID)] none).2.1 (List.cons_ne_nil _ _)]
    rfl

/-! ## `cpref` threshold correctness (core of claim C3)

At the raw variable level: in any assignment satisfying the `cpref`
clauses of a couple, `cpref[c][k]` holds iff some ranked pair of index
`≤ k` has both members' match variables true — with index `k = |pairs|`
also admitting the two nil-column variables. -/

theorem cpref_correct_aux (σ : Var → Bool) (c : Couple) (hne : c.pairs ≠ [])
    (hsat : SatAll σ (cprefCouple c)) :
    ∀ k, k ≤ c.pairs.length →
      (σ (.cp c.uid k) = true ↔
        ((∃ j, j ≤ k ∧ j < c.pairs.length ∧
            σ (.rm c.r0 (c.pairs.getD j (0, 0)).1) = true ∧
            σ (.rm c.r1 (c.pairs.getD j (0, 0)).2) = true) ∨
         (c.pairs.length ≤ k ∧ σ (.rm c.r0 NIL_UID) = true ∧
           σ (.rm c.r1 NIL_UID) = true))) := by
  have hlen1 : 1 ≤ c.pairs.length := List.length_pos.mpr hne
  rw [cprefCouple, satAll_append, satAll_flatMap] at hsat
  obtain ⟨hloop, hterm⟩ := hsat
  rw [satAll_cons, satAll_cons, satAll_cons, satAll_cons] at hterm
  obtain ⟨t1, t2, t3, t4, -⟩ := hterm
  intro k
  induction k with
  | zero =>
      intro _
      have h0 := hloop 0 (List.mem_range.mpr (by omega))
      rw [if_pos rfl, satAll_cons, satAll_cons, satAll_cons] at h0
      obtain ⟨c1, c2, c3, -⟩ := h0
      have e1 := sat2 c1
      have e2 := sat2 c2
      have e3 := sat3 c3
      simp only [litEval_pos, litEval_neg, Bool.not_eq_true'] at e1 e2 e3
      constructor
      · intro hcp
        refine Or.inl ⟨0, le_refl 0, by omega, ?_, ?_⟩
        · rcases e1 with e | e
          · rw [hcp] at e
            exact absurd e (by simp)
          · exact e
        · rcases e2 with e | e
          · rw [hcp] at e
            exact absurd e (by simp)
          · exact e
      · rintro (⟨j, hj0, _, ha, hb⟩ | ⟨hl0, _, _⟩)
        · have hj : j = 0 := by omega
          subst hj
          rcases e3 with e | e | e
          · exact e
          · rw [ha] at e
            simp at e
          · rw [hb] at e
            simp at e
        · omega
  | succ k ihk =>
      intro hk1
      have ih := ihk (by omega)
      by_cases hkl : k + 1 < c.pairs.length
      · have hstep := hloop (k + 1) (List.mem_range.mpr hkl)
        rw [if_neg (by omega), satAll_cons, satAll_cons, satAll_cons,
          satAll_cons] at hstep
        obtain ⟨c1, c2, c3, c4, -⟩ := hstep
        have e1 := sat3 c1
        have e2 := sat3 c2
        have e3 := sat2 c3
        have e4 := sat3 c4
        simp only [litEval_pos, litEval_neg, Bool.not_eq_true',
          Nat.add_sub_cancel] at e1 e2 e3 e4
        have hiff : σ (.cp c.uid (k + 1)) = true ↔
            (σ (.cp c.uid k) = true ∨
              (σ (.rm c.r0 (c.pairs.getD (k + 1) (0, 0)).1) = true ∧
               σ (.rm c.r1 (c.pairs.getD (k + 1) (0, 0)).2) = true)) := by
          clear ih ihk hloop t1 t2 t3 t4
          cases h1 : σ (.cp c.uid (k + 1)) <;> cases h2 : σ (.cp c.uid k) <;>
            cases h3 : σ (.rm c.r0 (c.pairs.getD (k + 1) (0, 0)).1) <;>
            cases h4 : σ (.rm c.r1 (c.pairs.getD (k + 1) (0, 0)).2) <;>
            simp_all
        rw [hiff, ih]
        constructor
        · rintro ((⟨j, hj, hjl, ha, hb⟩ | ⟨hl, _, _⟩) | ⟨ha, hb⟩)
          · exact Or.inl ⟨j, by omega, hjl, ha, hb⟩
          · omega
          · exact Or.inl ⟨k + 1, le_refl _, hkl, ha, hb⟩
        · rintro (⟨j, hj, hjl, ha, hb⟩ | ⟨hl, _, _⟩)
          · by_cases hjk : j ≤ k
            · exact Or.inl (Or.inl ⟨j, hjk, hjl, ha, hb⟩)
            · have hje : j = k + 1 := by omega
              subst hje
              exact Or.inr ⟨ha, hb⟩
          · omega
      · have hkeq : k + 1 = c.pairs.length := by omega
        have e1 := sat3 t1
        have e2 := sat3 t2
        have e3 := sat2 t3
        have e4 := sat3 t4
        simp only [litEval_pos, litEval_neg, Bool.not_eq_true'] at e1 e2 e3 e4
        have hlm : c.pairs.length - 1 = k := by omega
        rw [hlm] at e1 e2 e3
        rw [← hkeq] at e1 e2 e3 e4
        have hiff : σ (.cp c.uid (k + 1)) = true ↔
            (σ (.cp c.uid k) = true ∨
              (σ (.rm c.r0 NIL_UID) = true ∧ σ (.rm c.r1 NIL_UID) = true)) := by
          clear ih ihk hloop
          cases h1 : σ (.cp c.uid (k + 1)) <;> cases h2 : σ (.cp c.uid k) <;>
            cases h3 : σ (.rm c.r0 NIL_UID) <;>
            cases h4 : σ (.rm c.r1 NIL_UID) <;> simp_all
        rw [hiff, ih]
        constructor
        · rintro ((⟨j, hj, hjl, ha, hb⟩ | ⟨hl, _, _⟩) | ⟨ha, hb⟩)
          · exact Or.inl ⟨j, by omega, hjl, ha, hb⟩
          · omega
          · exact Or.inr ⟨by omega, ha, hb⟩
        · rintro (⟨j, hj, hjl, ha, hb⟩ | ⟨_, ha, hb⟩)
          · exact Or.inl (Or.inl ⟨j, by omega, hjl, ha, hb⟩)
          · exact Or.inr ⟨ha, hb⟩

/-! ## Exactly-one matching: decoding a satisfying assignment -/

theorem combPairs_cover {α : Type} (l : List α) (a b : α)
    (ha : a ∈ l) (hb : b ∈ l) (hab : a ≠ b) :
    (a, b) ∈ combPairs l ∨ (b, a) ∈ combPairs l := by
  induction l with
  | nil => simp at ha
  | cons x xs ih =>
      rcases List.mem_cons.mp ha with rfl | ha2
      · rcases List.mem_cons.mp hb with rfl | hb2
        · exact absurd rfl hab
        · exact Or.inl (List.mem_append_left _
            (List.mem_map_of_mem (fun y => (a, y)) hb2))
      · rcases List.mem_cons.mp hb with rfl | hb2
        · exact Or.inr (List.mem_append_left _
            (List.mem_map_of_mem (fun y => (b, y)) ha2))
        · rcases ih ha2 hb2 with h | h
          · exact Or.inl (List.mem_append_right _ h)
          · exact Or.inr (List.mem_append_right _ h)

/-- Pairwise at-most-one clauses (over any list covering the columns)
force uniqueness of the true column. -/
theorem amo_unique (σ : Var → Bool) (r : Nat) (cs : List Nat)
    (hamo : ∀ p ∈ combPairs cs,
      clauseEval σ [neg (.rm r p.1), neg (.rm r p.2)] = true)
    (a b : Nat) (ha : a ∈ cs) (hb : b ∈ cs)
    (hsa : σ (.rm r a) = true) (hsb : σ (.rm r b) = true) : a = b := by
  by_contra hab
  rcases combPairs_cover cs a b ha hb hab with h | h
  · have := sat2 (hamo _ h)
    simp only [litEval_neg, Bool.not_eq_true'] at this
    rcases this with e | e
    · rw [hsa] at e
      exact absurd e (by simp)
    · rw [hsb] at e
      exact absurd e (by simp)
  · have := sat2 (hamo _ h)
    simp only [litEval_neg, Bool.not_eq_true'] at this
    rcases this with e | e
    · rw [hsb] at e
      exact absurd e (by simp)
    · rw [hsa] at e
      exact absurd e (by simp)

/-- In a list with duplicate-free keys, `find?` by the key of a member
returns that member. -/
theorem find?_key_eq {α : Type} (key : α → Nat) (l : List α)
    (hnd : (l.map key).Nodup) (x : α) (hx : x ∈ l) :
    l.find? (fun y => key y = key x) = some x := by
  induction l with
  | nil => simp at hx
  | cons a rest ih =>
      rw [List.map_cons, List.nodup_cons] at hnd
      obtain ⟨hka, hndr⟩ := hnd
      by_cases hk : key a = key x
      · have hax : x = a := by
          rcases List.mem_cons.mp hx with rfl | hx2
          · rfl
          · exact absurd (hk ▸ List.mem_map_of_mem key hx2) hka
        subst hax
        rw [List.find?_cons_of_pos _ (by simpa using hk)]
      · have hx2 : x ∈ rest := by
          rcases List.mem_cons.mp hx with rfl | hx2
          · exact absurd rfl hk
          · exact hx2
        rw [List.find?_cons_of_neg _ (by simpa using hk)]
        exact ih hndr hx2

/-- In a couple list whose member-uid flattening is duplicate-free, each
couple's members are distinct. -/
theorem couple_members_ne (cs : List Couple)
    (hnd : (cs.flatMap (fun c => [c.r0, c.r1])).Nodup)
    (c : Couple) (hc : c ∈ cs) : c.r0 ≠ c.r1 := by
  induction cs with
  | nil => simp at hc
  | cons a rest ih =>
      rw [List.flatMap_cons, List.nodup_append] at hnd
      obtain ⟨hpair, hrest, _⟩ := hnd
      rcases List.mem_cons.mp hc with rfl | hc2
      · simpa using hpair
      · exact ih hrest hc2

/-- `find?` over the couples by membership of `c.r0` returns `c`. -/
theorem couples_find_r0 (cs : List Couple)
    (hnd : (cs.flatMap (fun c => [c.r0, c.r1])).Nodup)
    (c : Couple) (hc : c ∈ cs) :
    cs.find? (fun x => x.r0 = c.r0 || x.r1 = c.r0) = some c := by
  induction cs with
  | nil => simp at hc
  | cons a rest ih =>
      rw [List.flatMap_cons, List.nodup_append] at hnd
      obtain ⟨_, hrest, hdisj⟩ := hnd
      rcases List.mem_cons.mp hc with rfl | hc2
      · rw [List.find?_cons_of_pos]
        simp
      · have hr0mem : c.r0 ∈ rest.flatMap (fun x => [x.r0, x.r1]) :=
          List.mem_flatMap.mpr ⟨c, hc2, by simp⟩
        have hna : ¬(a.r0 = c.r0 ∨ a.r1 = c.r0) := by
          rintro (h | h)
          · exact hdisj (by simp) (h ▸ hr0mem)
          · exact hdisj (by simp) (h ▸ hr0mem)
        rw [List.find?_cons_of_neg _ (by simpa using hna)]
        exact ih hrest hc2

/-- `find?` over the couples by membership of `c.r1` returns `c`. -/
theorem couples_find_r1 (cs : List Couple)
    (hnd : (cs.flatMap (fun c => [c.r0, c.r1])).Nodup)
    (c : Couple) (hc : c ∈ cs) :
    cs.find? (fun x => x.r0 = c.r1 || x.r1 = c.r1) = some c := by
  induction cs with
  | nil => simp at hc
  | cons a rest ih =>
      rw [List.flatMap_cons, List.nodup_append] at hnd
      obtain ⟨_, hrest, hdisj⟩ := hnd
      rcases List.mem_cons.mp hc with rfl | hc2
      · rw [List.find?_cons_of_pos]
        simp
      · have hr1mem : c.r1 ∈ rest.flatMap (fun x => [x.r0, x.r1]) :=
          List.mem_flatMap.mpr ⟨c, hc2, by simp⟩
        have hna : ¬(a.r0 = c.r1 ∨ a.r1 = c.r1) := by
          rintro (h | h)
          · exact hdisj (by simp) (h ▸ hr1mem)
          · exact hdisj (by simp) (h ▸ hr1mem)
        rw [List.find?_cons_of_neg _ (by simpa using hna)]
        exact ih hrest hc2

theorem singles_nodup_uids (I : ProblemInstance) (wf : Wf I) :
    (I.singles.map Single.uid).Nodup :=
  ((List.nodup_append.mp wf.nodupRes).1)

theorem couples_nodup_members (I : ProblemInstance) (wf : Wf I) :
    (I.couples.flatMap (fun c => [c.r0, c.r1])).Nodup :=
  ((List.nodup_append.mp wf.nodupRes).2.1)

theorem singles_couples_disjoint (I : ProblemInstance) (wf : Wf I) :
    ∀ u, u ∈ I.singles.map Single.uid →
      u ∈ I.couples.flatMap (fun c => [c.r0, c.r1]) → False := by
  intro u h1 h2
  exact (List.nodup_append.mp wf.nodupRes).2.2 h1 h2

theorem resCols_single (I : ProblemInstance) (wf : Wf I) (s : Single)
    (hs : s ∈ I.singles) : resCols I s.uid = s.prefs ++ [NIL_UID] := by
  unfold resCols
  rw [find?_key_eq Single.uid I.singles (singles_nodup_uids I wf) s hs]

theorem resCols_couple0 (I : ProblemInstance) (wf : Wf I) (c : Couple)
    (hc : c ∈ I.couples) :
    resCols I c.r0 = c.rankedHospitals0 ++ [NIL_UID] := by
  unfold resCols
  have hnone : I.singles.find? (fun s => s.uid = c.r0) = none := by
    rw [List.find?_eq_none]
    intro s hs
    simp only [decide_eq_true_eq]
    intro he
    exact singles_couples_disjoint I wf c.r0
      (he ▸ List.mem_map_of_mem Single.uid hs)
      (List.mem_flatMap.mpr ⟨c, hc, by simp⟩)
  rw [hnone, couples_find_r0 I.couples (couples_nodup_members I wf) c hc]
  simp

theorem resCols_couple1 (I : ProblemInstance) (wf : Wf I) (c : Couple)
    (hc : c ∈ I.couples) :
    resCols I c.r1 = c.rankedHospitals1 ++ [NIL_UID] := by
  unfold resCols
  have hnone : I.singles.find? (fun s => s.uid = c.r1) = none := by
    rw [List.find?_eq_none]
    intro s hs
    simp only [decide_eq_true_eq]
    intro he
    exact singles_couples_disjoint I wf c.r1
      (he ▸ List.mem_map_of_mem Single.uid hs)
      (List.mem_flatMap.mpr ⟨c, hc, by simp⟩)
  rw [hnone, couples_find_r1 I.couples (couples_nodup_members I wf) c hc]
  simp [couple_members_ne I.couples (couples_nodup_members I wf) c hc]

theorem clauseEval_append (σ : Var → Bool) (a b : Clause) :
    clauseEval σ (a ++ b) = (clauseEval σ a || clauseEval σ b) :=
  List.any_append

theorem clauseEval_posRm (σ : Var → Bool) (r : Nat) (l : List Nat) :
    clauseEval σ (l.map (fun hu => pos (.rm r hu))) = true ↔
      ∃ hu ∈ l, σ (.rm r hu) = true := by
  simp [clauseEval, List.any_map, Function.comp_def, litEval, pos,
    List.any_eq_true]

theorem getD_mem_of_lt (l : List Nat) (j : Nat) (hj : j < l.length) :
    l.getD j 0 ∈ l := by
  induction l generalizing j with
  | nil => simp at hj
  | cons a rest ih =>
      cases j with
      | zero => simp
      | succ j => exact List.mem_cons_of_mem a (ih j (by simpa using hj))

theorem getDPair_mem_of_lt (l : List (Nat × Nat)) (j : Nat) (hj : j < l.length) :
    l.getD j (0, 0) ∈ l := by
  induction l generalizing j with
  | nil => simp at hj
  | cons a rest ih =>
      cases j with
      | zero => simp
      | succ j => exact List.mem_cons_of_mem a (ih j (by simpa using hj))

/-- Existence and uniqueness of the true column pin down the decoded
value. -/
theorem find_col_spec (σ : Var → Bool) (r : Nat) (cols : List Nat)
    (hex : ∃ hu ∈ cols, σ (.rm r hu) = true)
    (huniq : ∀ a ∈ cols, ∀ b ∈ cols,
      σ (.rm r a) = true → σ (.rm r b) = true → a = b) :
    ((cols.find? (fun x => σ (.rm r x))).getD NIL_UID ∈ cols ∧
      σ (.rm r ((cols.find? (fun x => σ (.rm r x))).getD NIL_UID)) = true) ∧
    (∀ hu ∈ cols, σ (.rm r hu) = true →
      hu = (cols.find? (fun x => σ (.rm r x))).getD NIL_UID) := by
  obtain ⟨x0, hx0, hsx0⟩ := hex
  have hsome : (cols.find? (fun x => σ (.rm r x))).isSome :=
    List.find?_isSome.mpr ⟨x0, hx0, hsx0⟩
  obtain ⟨y, hy⟩ := Option.isSome_iff_exists.mp hsome
  have hpy : σ (.rm r y) = true := by
    have := List.find?_some hy
    exact this
  have hymem : y ∈ cols := List.mem_of_find?_eq_some hy
  rw [hy]
  refine ⟨⟨hymem, hpy⟩, fun hu hmem hshu => huniq hu hmem y hymem hshu hpy⟩

/-- Under the matching clauses, each resident of the instance has a
well-defined decoded hospital: its match variable is true, it lies in the
resident's columns, and it is the only true column. -/
theorem decodeMu_spec (I : ProblemInstance) (σ : Var → Bool) (wf : Wf I)
    (hm : SatAll σ (matchingClauses I)) (r : Nat) (hr : r ∈ residentUids I) :
    (decodeMu σ I r ∈ resCols I r ∧ σ (.rm r (decodeMu σ I r)) = true) ∧
    (∀ hu ∈ resCols I r, σ (.rm r hu) = true → hu = decodeMu σ I r) := by
  rw [matchingClauses, satAll_append, satAll_append, satAll_append] at hm
  obtain ⟨⟨⟨haloS, haloC⟩, hamoS⟩, hamoC⟩ := hm
  rw [residentUids, List.mem_append] at hr
  rcases hr with hr | hr
  · -- single
    obtain ⟨s, hs, rfl⟩ := List.mem_map.mp hr
    have hcols := resCols_single I wf s hs
    have halo := (satAll_map σ I.singles _).mp haloS s hs
    rw [clauseEval_append] at halo
    have hex : ∃ hu ∈ resCols I s.uid, σ (.rm s.uid hu) = true := by
      rw [hcols]
      rw [Bool.or_eq_true] at halo
      rcases halo with he | he
      · obtain ⟨hu, hmem, hshu⟩ := (clauseEval_posRm σ s.uid s.prefs).mp he
        exact ⟨hu, List.mem_append_left _ hmem, hshu⟩
      · refine ⟨NIL_UID, List.mem_append_right _ (by simp), ?_⟩
        simpa [clauseEval, litEval, pos] using he
    have hamo := (satAll_flatMap σ I.singles _).mp hamoS s hs
    rw [satAll_map] at hamo
    have huniq : ∀ a ∈ resCols I s.uid, ∀ b ∈ resCols I s.uid,
        σ (.rm s.uid a) = true → σ (.rm s.uid b) = true → a = b := by
      rw [hcols]
      intro a ha b hb hsa hsb
      exact amo_unique σ s.uid (s.prefs ++ [NIL_UID]) hamo a b ha hb hsa hsb
    exact find_col_spec σ s.uid (resCols I s.uid) hex huniq
  · -- couple member
    obtain ⟨c, hc, hr⟩ := List.mem_flatMap.mp hr
    have hamo := (satAll_flatMap σ I.couples _).mp hamoC c hc
    rw [satAll_append, satAll_map, satAll_map] at hamo
    obtain ⟨hamo0, hamo1⟩ := hamo
    have halo := (satAll_flatMap σ I.couples _).mp haloC c hc
    rw [satAll_cons, satAll_cons] at halo
    obtain ⟨halo0, halo1, -⟩ := halo
    have hmemOf : ∀ x : Nat, x ∈ [c.r0, c.r1] → x = c.r0 ∨ x = c.r1 := by
      simp
    rcases hmemOf r hr with rfl | rfl
    · have hcols := resCols_couple0 I wf c hc
      rw [clauseEval_append] at halo0
      have hex : ∃ hu ∈ resCols I c.r0, σ (.rm c.r0 hu) = true := by
        rw [hcols]
        rw [Bool.or_eq_true] at halo0
        rcases halo0 with he | he
        · obtain ⟨hu, hmem, hshu⟩ := (clauseEval_posRm σ c.r0 _).mp he
          exact ⟨hu, List.mem_append_left _ hmem, hshu⟩
        · refine ⟨NIL_UID, List.mem_append_right _ (by simp), ?_⟩
          simpa [clauseEval, litEval, pos] using he
      have huniq : ∀ a ∈ resCols I c.r0, ∀ b ∈ resCols I c.r0,
          σ (.rm c.r0 a) = true → σ (.rm c.r0 b) = true → a = b := by
        rw [hcols]
        intro a ha b hb hsa hsb
        exact amo_unique σ c.r0 (pySetList (c.rankedHospitals0 ++ [NIL_UID]))
          hamo0 a b ((pySetList_mem _ a).mpr ha) ((pySetList_mem _ b).mpr hb)
          hsa hsb
      exact find_col_spec σ c.r0 (resCols I c.r0) hex huniq
    · have hcols := resCols_couple1 I wf c hc
      rw [clauseEval_append] at halo1
      have hex : ∃ hu ∈ resCols I c.r1, σ (.rm c.r1 hu) = true := by
        rw [hcols]
        rw [Bool.or_eq_true] at halo1
        rcases halo1 with he | he
        · obtain ⟨hu, hmem, hshu⟩ := (clauseEval_posRm σ c.r1 _).mp he
          exact ⟨hu, List.mem_append_left _ hmem, hshu⟩
        · refine ⟨NIL_UID, List.mem_append_right _ (by simp), ?_⟩
          simpa [clauseEval, litEval, pos] using he
      have huniq : ∀ a ∈ resCols I c.r1, ∀ b ∈ resCols I c.r1,
          σ (.rm c.r1 a) = true → σ (.rm c.r1 b) = true → a = b := by
        rw [hcols]
        intro a ha b hb hsa hsb
        exact amo_unique σ c.r1 (pySetList (c.rankedHospitals1 ++ [NIL_UID]))
          hamo1 a b ((pySetList_mem _ a).mpr ha) ((pySetList_mem _ b).mpr hb)
          hsa hsb
      exact find_col_spec σ c.r1 (resCols I c.r1) hex huniq

/-- A match variable of a column of resident `r` is true exactly when the
decoded matching assigns that column. -/
theorem rm_iff_mu (I : ProblemInstance) (σ : Var → Bool) (wf : Wf I)
    (hm : SatAll σ (matchingClauses I)) (r : Nat) (hr : r ∈ residentUids I)
    (hu : Nat) (hcol : hu ∈ resCols I r) :
    σ (.rm r hu) = true ↔ decodeMu σ I r = hu := by
  obtain ⟨⟨hmem, hs⟩, huniq⟩ := decodeMu_spec I σ wf hm r hr
  constructor
  · intro h
    exact (huniq hu hcol h).symm
  · rintro rfl
    exact hs

/-- The raw count of true match variables along a prefix of a hospital's
list equals the count of residents decoded to that hospital. -/
theorem cntTrue_eq_muCount (I : ProblemInstance) (σ : Var → Bool) (wf : Wf I)
    (hm : SatAll σ (matchingClauses I)) (h : Hospital) (hh : h ∈ I.hospitals)
    (i : Nat) :
    cntTrue σ h i =
      (h.prefs.take i).countP (fun r => decodeMu σ I r == h.uid) := by
  unfold cntTrue
  apply List.countP_congr
  intro x hx
  show σ (.rm x h.uid) = true ↔ (decodeMu σ I x == h.uid) = true
  rw [beq_iff_eq]
  have hxp : x ∈ h.prefs := List.mem_of_mem_take hx
  obtain ⟨-, hok⟩ := wf.hospPrefsOk h hh
  obtain ⟨hxres, hxcol⟩ := hok x hxp
  exact rm_iff_mu I σ wf hm x hxres h.uid hxcol

/-! ## Rank and lookup support lemmas -/

theorem get_rank_spec (l : List Nat) (x : Nat) (k : Nat)
    (h : get_rank l x = some k) : k < l.length ∧ l.get? k = some x := by
  induction l generalizing k with
  | nil => simp [get_rank] at h
  | cons a rest ih =>
      rw [get_rank] at h
      by_cases ha : a = x
      · rw [if_pos ha] at h
        injection h with h
        subst h
        simp [ha]
      · rw [if_neg ha] at h
        rcases Option.map_eq_some'.mp h with ⟨k0, hk0, hk⟩
        obtain ⟨hlt, hget⟩ := ih k0 hk0
        subst hk
        constructor
        · simpa using hlt
        · simpa using hget

theorem get_rank_isSome (l : List Nat) (x : Nat) (hx : x ∈ l) :
    ∃ k, get_rank l x = some k := by
  induction l with
  | nil => simp at hx
  | cons a rest ih =>
      rw [get_rank]
      by_cases ha : a = x
      · exact ⟨0, by rw [if_pos ha]⟩
      · rcases List.mem_cons.mp hx with rfl | hx2
        · exact absurd rfl ha
        · obtain ⟨k, hk⟩ := ih hx2
          exact ⟨k + 1, by rw [if_neg ha, hk]; rfl⟩

theorem rankIn_lt_length (l : List Nat) (x : Nat) (hx : x ∈ l) :
    rankIn l x < l.length := by
  obtain ⟨k, hk⟩ := get_rank_isSome l x hx
  rw [rankIn, hk]
  exact (get_rank_spec l x k hk).1

theorem rankIn_get? (l : List Nat) (x : Nat) (hx : x ∈ l) :
    l.get? (rankIn l x) = some x := by
  obtain ⟨k, hk⟩ := get_rank_isSome l x hx
  rw [rankIn, hk]
  exact (get_rank_spec l x k hk).2

theorem rankIn_eq (l : List Nat) (x : Nat) (k : Nat) (hnd : l.Nodup)
    (hget : l.get? k = some x) : rankIn l x = k := by
  rw [rankIn, get_rank_of_get? l x k hnd hget]
  rfl

theorem weaklyList_eq (l : List Nat) (x : Nat) (hnd : l.Nodup) (hx : x ∈ l) :
    weaklyList l x = l.take (rankIn l x) ++ [x] := by
  obtain ⟨k, hk⟩ := List.get?_of_mem hx
  rw [weaklyList, get_all_weakly_preferred,
    get_all_preferred_of_get? l x k hnd hk, rankIn_eq l x k hnd hk]
  rfl

theorem rankIn_lt_of_mem_take (l : List Nat) (hnd : l.Nodup) (y : Nat)
    (k : Nat) (hy : y ∈ l.take k) : rankIn l y < k := by
  obtain ⟨n, hn⟩ := List.get?_of_mem hy
  have hnlen : n < (l.take k).length := by
    by_contra hge
    rw [List.get?_eq_none.mpr (by omega)] at hn
    exact absurd hn (by simp)
  have hnk : n < k := lt_of_lt_of_le hnlen (by simp [List.length_take])
  have hgl : l.get? n = some y := by
    rw [← List.get?_take hnk]
    exact hn
  rw [rankIn_eq l y n hnd hgl]
  exact hnk

theorem hospOf_uid (I : ProblemInstance) (u : Nat) : (hospOf I u).uid = u := by
  unfold hospOf
  split
  · next he => simp [nilHospital, he]
  · cases hf : I.hospitals.find? (fun h => h.uid = u) with
    | none => rfl
    | some y =>
        have := List.find?_some hf
        simpa using this

theorem hospOf_mem (I : ProblemInstance) (u : Nat) (hne : u ≠ NIL_UID)
    (hex : hospExists I u) : hospOf I u ∈ I.hospitals := by
  unfold hospOf
  rw [if_neg hne]
  obtain ⟨h, hh, he⟩ := hex
  have hsome : (I.hospitals.find? (fun x => x.uid = u)).isSome :=
    List.find?_isSome.mpr ⟨h, hh, by simpa using he⟩
  obtain ⟨y, hy⟩ := Option.isSome_iff_exists.mp hsome
  rw [hy]
  exact List.mem_of_find?_eq_some hy

/-! ## `append_q_vars` extraction lemmas -/

theorem qRefLit_some (h : Hospital) (r n : Nat) (lit : Lit)
    (he : qRefLit h r n = some lit) :
    h.uid ≠ NIL_UID ∧ n ≤ rankIn h.prefs r ∧
      lit = pos (.q h.uid (rankIn h.prefs r) n) := by
  unfold qRefLit at he
  by_cases h1 : h.uid = NIL_UID
  · rw [if_pos h1] at he
    exact absurd he (by simp)
  · rw [if_neg h1] at he
    by_cases h2 : n ≤ rankIn h.prefs r
    · rw [if_pos h2] at he
      injection he with he
      exact ⟨h1, h2, he.symm⟩
    · rw [if_neg h2] at he
      exact absurd he (by simp)

/-- If a stability clause holds but all its base literals are false, one
of its `append_q_vars` references is present and true. -/
theorem qref_extract (σ : Var → Bool) (base : Clause)
    (entries : List (Hospital × Nat × Nat))
    (hsat : clauseEval σ (append_q_vars base entries) = true)
    (hbase : clauseEval σ base = false) :
    ∃ t ∈ entries, ∃ lit, qRefLit t.1 t.2.1 t.2.2 = some lit ∧
      litEval σ lit = true := by
  rw [append_q_vars, clauseEval_append, hbase, Bool.false_or] at hsat
  rw [clauseEval, List.any_eq_true] at hsat
  obtain ⟨lit, hmem, hlit⟩ := hsat
  obtain ⟨t, ht, he⟩ := List.mem_filterMap.mp hmem
  exact ⟨t, ht, lit, he, hlit⟩

/-- A true `q[h][rank(h,r)][n]` literal forces the decoded matching to put
exactly `n` residents that `h` strictly prefers to `r` at `h` (trivially
so when `r` is `h`'s top choice and `n = 0`). -/
theorem q_lit_count (I : ProblemInstance) (σ : Var → Bool) (wf : Wf I)
    (hm : SatAll σ (matchingClauses I)) (hq : SatAll σ (qClausesAll I))
    (hu r n : Nat) (hne : hu ≠ NIL_UID) (hex : hospExists I hu)
    (hrmem : r ∈ (hospOf I hu).prefs)
    (hncap : n ≤ (hospOf I hu).capacity + 1)
    (hnrank : n ≤ rankIn (hospOf I hu).prefs r)
    (ht : σ (.q hu (rankIn (hospOf I hu).prefs r) n) = true) :
    fullUpTo I (decodeMu σ I) hu r n := by
  set h := hospOf I hu with hdef
  have hh : h ∈ I.hospitals := hospOf_mem I hu hne hex
  have hkl : rankIn h.prefs r < h.prefs.length := rankIn_lt_length _ r hrmem
  unfold fullUpTo
  by_cases hk0 : rankIn h.prefs r = 0
  · rw [← hdef, hk0]
    simp only [List.take_zero, List.countP_nil]
    omega
  · have hsath : SatAll σ (qHospital h) := by
      rw [qClausesAll, satAll_flatMap] at hq
      exact hq h hh
    rw [qHospital, satAll_flatMap] at hsath
    have hlev : ∀ i0, i0 < h.prefs.length → SatAll σ (qLevel h (i0 + 1)) :=
      fun i0 hi0 => hsath i0 (List.mem_range.mpr hi0)
    have hiff := q_level_correct σ h hlev (rankIn h.prefs r) (by omega)
      (by omega) n (by omega)
    have huid : h.uid = hu := hospOf_uid I hu
    rw [← hdef]
    rw [← huid]
    rw [← cntTrue_eq_muCount I σ wf hm h hh]
    rw [← huid] at ht
    exact hiff.mp ht

/-! ## Claim C2: sequential-counter correctness -/

/-- C2.  In every truth assignment satisfying the sequential-counter
clauses (base, step and overflow) together with the matching clauses,
for every hospital `h`, every `i ∈ 1..|rank(h)|` and every
`j ∈ 0..min(i, cap(h)+1)`, the variable `q[h][i][j]` is true iff exactly
`j` of the first `i` residents of `h`'s preference order are matched
to `h` (under the matching decoded from the assignment). -/
theorem seq_counter_correct (I : ProblemInstance) (σ : Var → Bool) (wf : Wf I)
    (hm : SatAll σ (matchingClauses I)) (hq : SatAll σ (qClausesAll I)) :
    ∀ h ∈ I.hospitals, ∀ i, 1 ≤ i → i ≤ h.prefs.length →
      ∀ j, j ≤ min i (h.capacity + 1) →
        (σ (.q h.uid i j) = true ↔
          (h.prefs.take i).countP (fun r => decodeMu σ I r == h.uid) = j) := by
  intro h hh i h1 hlen j hj
  have hsath : SatAll σ (qHospital h) := by
    rw [qClausesAll, satAll_flatMap] at hq
    exact hq h hh
  rw [qHospital, satAll_flatMap] at hsath
  have hlev : ∀ i0, i0 < h.prefs.length → SatAll σ (qLevel h (i0 + 1)) :=
    fun i0 hi0 => hsath i0 (List.mem_range.mpr hi0)
  rw [← cntTrue_eq_muCount I σ wf hm h hh i]
  exact q_level_correct σ h hlev i h1 hlen j hj

theorem wfI2 : Wf I2 :=
  ⟨by decide, by decide, by decide, by decide, by decide, by decide,
   by decide, by decide⟩

/-- Witness for C2 at instance `I2`, assignment `sigma2`, hospital 1,
`i = j = 1`. -/
theorem seq_counter_correct_witness :
    sigma2 (.q 1 1 1) = true ↔
      (([0] : List Nat).take 1).countP (fun r => decodeMu sigma2 I2 r == 1) = 1 :=
  seq_counter_correct I2 sigma2 wfI2 (by decide) (by decide)
    ⟨1, 1, [0]⟩ (by decide) 1 (by decide) (by decide) 1 (by decide)

/-! ## Claim C3: `cpref` threshold correctness -/

theorem r0_mem_residentUids (I : ProblemInstance) (c : Couple)
    (hc : c ∈ I.couples) : c.r0 ∈ residentUids I :=
  List.mem_append_right _ (List.mem_flatMap.mpr ⟨c, hc, by simp⟩)

theorem r1_mem_residentUids (I : ProblemInstance) (c : Couple)
    (hc : c ∈ I.couples) : c.r1 ∈ residentUids I :=
  List.mem_append_right _ (List.mem_flatMap.mpr ⟨c, hc, by simp⟩)

/-- `cpref[c][k]` tracks the decoded matching's rank threshold (shared
helper behind claim C3 and the stability proof). -/
theorem cpref_mu_iff (I : ProblemInstance) (σ : Var → Bool) (wf : Wf I)
    (hm : SatAll σ (matchingClauses I))
    (hcp : SatAll σ (cprefClausesAll I ++ cprefBigOr I)) :
    ∀ c ∈ I.couples, ∀ k, k ≤ c.pairs.length →
      (σ (.cp c.uid k) = true ↔ MatchedAtLe (decodeMu σ I) c k) := by
  intro c hc k hk
  rw [satAll_append] at hcp
  have hsatc : SatAll σ (cprefCouple c) := by
    have := hcp.1
    rw [cprefClausesAll, satAll_flatMap] at this
    exact this c hc
  obtain ⟨hne, -, -⟩ := wf.couplesOk c hc
  have haux := cpref_correct_aux σ c hne hsatc k hk
  rw [haux]
  have hr0 := r0_mem_residentUids I c hc
  have hr1 := r1_mem_residentUids I c hc
  have hcol0 : ∀ j, j < c.pairs.length →
      (c.pairs.getD j (0, 0)).1 ∈ resCols I c.r0 := by
    intro j hj
    rw [resCols_couple0 I wf c hc]
    refine List.mem_append_left _ ?_
    rw [Couple.rankedHospitals0, pySetList_mem]
    exact List.mem_map.mpr ⟨c.pairs.getD j (0, 0), getDPair_mem_of_lt _ j hj, rfl⟩
  have hcol1 : ∀ j, j < c.pairs.length →
      (c.pairs.getD j (0, 0)).2 ∈ resCols I c.r1 := by
    intro j hj
    rw [resCols_couple1 I wf c hc]
    refine List.mem_append_left _ ?_
    rw [Couple.rankedHospitals1, pySetList_mem]
    exact List.mem_map.mpr ⟨c.pairs.getD j (0, 0), getDPair_mem_of_lt _ j hj, rfl⟩
  have hnil0 : NIL_UID ∈ resCols I c.r0 := by
    rw [resCols_couple0 I wf c hc]
    exact List.mem_append_right _ (by simp)
  have hnil1 : NIL_UID ∈ resCols I c.r1 := by
    rw [resCols_couple1 I wf c hc]
    exact List.mem_append_right _ (by simp)
  unfold MatchedAtLe matchedAtIdx
  constructor
  · rintro (⟨j, hj, hjl, ha, hb⟩ | ⟨hl, ha, hb⟩)
    · exact Or.inl ⟨j, hj, hjl,
        (rm_iff_mu I σ wf hm c.r0 hr0 _ (hcol0 j hjl)).mp ha,
        (rm_iff_mu I σ wf hm c.r1 hr1 _ (hcol1 j hjl)).mp hb⟩
    · exact Or.inr ⟨hl,
        (rm_iff_mu I σ wf hm c.r0 hr0 _ hnil0).mp ha,
        (rm_iff_mu I σ wf hm c.r1 hr1 _ hnil1).mp hb⟩
  · rintro (⟨j, hj, hjl, ha, hb⟩ | ⟨hl, ha, hb⟩)
    · exact Or.inl ⟨j, hj, hjl,
        (rm_iff_mu I σ wf hm c.r0 hr0 _ (hcol0 j hjl)).mpr ha,
        (rm_iff_mu I σ wf hm c.r1 hr1 _ (hcol1 j hjl)).mpr hb⟩
    · exact Or.inr ⟨hl,
        (rm_iff_mu I σ wf hm c.r0 hr0 _ hnil0).mpr ha,
        (rm_iff_mu I σ wf hm c.r1 hr1 _ hnil1).mpr hb⟩

/-- C3.  In every truth assignment satisfying the `cpref` clauses
together with the matching clauses, `cpref[c][k]` is true iff the
decoded matching assigns couple `c` a pair of rank at most `k` on its
joint list (both members matched to the components of a pair of rank
`≤ k`), with `k = |pairs|` additionally covering the `(nil, nil)`
assignment. -/
theorem cpref_correct (I : ProblemInstance) (σ : Var → Bool) (wf : Wf I)
    (hm : SatAll σ (matchingClauses I))
    (hcp : SatAll σ (cprefClausesAll I ++ cprefBigOr I)) :
    ∀ c ∈ I.couples, ∀ k, k ≤ c.pairs.length →
      (σ (.cp c.uid k) = true ↔ MatchedAtLe (decodeMu σ I) c k) :=
  cpref_mu_iff I σ wf hm hcp

theorem wfI3 : Wf I3 :=
  ⟨by decide, by decide, by decide, by decide, by decide, by decide,
   by decide, by decide⟩

/-- Witness for C3 at instance `I3`, assignment `sigma3`, couple 6,
`k = 0`. -/
theorem cpref_correct_witness :
    sigma3 (.cp 6 0) = true ↔
      MatchedAtLe (decodeMu sigma3 I3) ⟨6, 4, 5, [(1, 2)]⟩ 0 :=
  cpref_correct I3 sigma3 wfI3 (by decide) (by decide)
    ⟨6, 4, 5, [(1, 2)]⟩ (by decide) 0 (by decide)

/-! ## Stability of decoded matchings (claim C1, amended) -/

/-- Discharging one `append_q_vars` entry into a `fullUpTo` fact. -/
theorem entry_full (I : ProblemInstance) (σ : Var → Bool) (wf : Wf I)
    (hm : SatAll σ (matchingClauses I)) (hq : SatAll σ (qClausesAll I))
    (hu r n : Nat) (lit : Lit)
    (hne : hu ≠ NIL_UID) (hex : hospExists I hu)
    (hrmem : r ∈ (hospOf I hu).prefs)
    (hncap : n ≤ (hospOf I hu).capacity + 1)
    (hqe : qRefLit (hospOf I hu) r n = some lit)
    (hlit : litEval σ lit = true) :
    fullUpTo I (decodeMu σ I) hu r n := by
  obtain ⟨-, hle, rfl⟩ := qRefLit_some _ _ _ _ hqe
  rw [litEval_pos] at hlit
  rw [hospOf_uid] at hlit
  exact q_lit_count I σ wf hm hq hu r n hne hex hrmem hncap hle hlit

theorem pair_fst_mem_cols (I : ProblemInstance) (wf : Wf I) (c : Couple)
    (hc : c ∈ I.couples) (p : Nat × Nat) (hp : p ∈ c.pairs) :
    p.1 ∈ resCols I c.r0 := by
  rw [resCols_couple0 I wf c hc]
  refine List.mem_append_left _ ?_
  rw [Couple.rankedHospitals0, pySetList_mem]
  exact List.mem_map.mpr ⟨p, hp, rfl⟩

theorem pair_snd_mem_cols (I : ProblemInstance) (wf : Wf I) (c : Couple)
    (hc : c ∈ I.couples) (p : Nat × Nat) (hp : p ∈ c.pairs) :
    p.2 ∈ resCols I c.r1 := by
  rw [resCols_couple1 I wf c hc]
  refine List.mem_append_left _ ?_
  rw [Couple.rankedHospitals1, pySetList_mem]
  exact List.mem_map.mpr ⟨p, hp, rfl⟩

/-- The singles instability clauses force the singles half of the
spec's stability property on the decoded matching. -/
theorem singles_stable_of_sat (I : ProblemInstance) (σ : Var → Bool)
    (wf : Wf I) (hm : SatAll σ (matchingClauses I))
    (hq : SatAll σ (qClausesAll I)) (hstab : SatAll σ (stabSingles I)) :
    SinglesStable I (decodeMu σ I) := by
  intro s hs hu hhu hpref
  obtain ⟨hnd, hprefOk⟩ := wf.singlesOk s hs
  obtain ⟨hhune, hhex, hsmem⟩ := hprefOk hu hhu
  have hsuidres : s.uid ∈ residentUids I :=
    List.mem_append_left _ (List.mem_map_of_mem Single.uid hs)
  have hcols := resCols_single I wf s hs
  have hcl : clauseEval σ
      (append_q_vars
        ((weaklyList s.prefs hu).map (fun hu2 => pos (.rm s.uid hu2)))
        [(hospOf I hu, s.uid, (hospOf I hu).capacity)]) = true := by
    rw [stabSingles, satAll_flatMap] at hstab
    have hsm := hstab s hs
    rw [satAll_map] at hsm
    exact hsm hu hhu
  have hwl := weaklyList_eq s.prefs hu hnd hhu
  have hbase : clauseEval σ
      ((weaklyList s.prefs hu).map (fun hu2 => pos (.rm s.uid hu2))) = false := by
    rw [clauseEval, List.any_eq_false]
    intro lit hmem
    obtain ⟨hu2, hhu2, rfl⟩ := List.mem_map.mp hmem
    rw [litEval_pos]
    rw [hwl] at hhu2
    have hhu2p : hu2 ∈ s.prefs := by
      rcases List.mem_append.mp hhu2 with hmem2 | hmem2
      · exact List.mem_of_mem_take hmem2
      · simpa using (List.mem_singleton.mp hmem2) ▸ hhu
    intro hσ2
    have hmu2 : decodeMu σ I s.uid = hu2 :=
      (rm_iff_mu I σ wf hm s.uid hsuidres hu2
        (hcols ▸ List.mem_append_left _ hhu2p)).mp hσ2
    rcases hpref with hnil | hlt
    · rw [hnil] at hmu2
      exact (hprefOk hu2 hhu2p).1 hmu2.symm
    · rw [hmu2] at hlt
      rcases List.mem_append.mp hhu2 with hmem2 | hmem2
      · have := rankIn_lt_of_mem_take s.prefs hnd hu2 _ hmem2
        omega
      · rw [List.mem_singleton.mp hmem2] at hlt
        omega
  obtain ⟨t, htmem, lit, hqe, hlit⟩ := qref_extract σ _ _ hcl hbase
  have ht : t = (hospOf I hu, s.uid, (hospOf I hu).capacity) := by
    simpa using htmem
  subst ht
  exact entry_full I σ wf hm hq hu s.uid _ lit hhune hhex hsmem
    (by omega) hqe hlit

/-- The two couple stability families force the couples half of the
spec's stability property on the decoded matching. -/
theorem couples_stable_of_sat (I : ProblemInstance) (σ : Var → Bool)
    (wf : Wf I) (hnn : NoNilPairs I)
    (hm : SatAll σ (matchingClauses I)) (hq : SatAll σ (qClausesAll I))
    (hcp : SatAll σ (cprefClausesAll I ++ cprefBigOr I))
    (hss : SatAll σ (stabCoupleSingle I)) (hds : SatAll σ (stabCoupleDouble I)) :
    CouplesStable I (decodeMu σ I) := by
  intro c hc n hn hnm
  obtain ⟨hpne, hndpairs, hpairsOk⟩ := wf.couplesOk c hc
  have hpmem : c.pairs.getD n (0, 0) ∈ c.pairs := getDPair_mem_of_lt _ n hn
  set p := c.pairs.getD n (0, 0) with hpdef
  obtain ⟨hex1or, hex2or, hr0mem, hr1mem, hsamecap⟩ := hpairsOk p hpmem
  obtain ⟨hp1ne, hp2ne⟩ := hnn c hc p hpmem
  have hex1 : hospExists I p.1 := by
    rcases hex1or with he | he
    · exact absurd he hp1ne
    · exact he
  have hex2 : hospExists I p.2 := by
    rcases hex2or with he | he
    · exact absurd he hp2ne
    · exact he
  have hr0inp : c.r0 ∈ (hospOf I p.1).prefs := hr0mem hp1ne
  have hr1inp : c.r1 ∈ (hospOf I p.2).prefs := hr1mem hp2ne
  have hr0res := r0_mem_residentUids I c hc
  have hr1res := r1_mem_residentUids I c hc
  have hmu0 := rm_iff_mu I σ wf hm c.r0 hr0res p.1
    (pair_fst_mem_cols I wf c hc p hpmem)
  have hmu1 := rm_iff_mu I σ wf hm c.r1 hr1res p.2
    (pair_snd_mem_cols I wf c hc p hpmem)
  have hcpf : σ (.cp c.uid n) = false := by
    cases hval : σ (.cp c.uid n)
    · rfl
    · exact absurd ((cpref_mu_iff I σ wf hm hcp c hc n (le_of_lt hn)).mp hval) hnm
  have hssc := (satAll_flatMap σ I.couples _).mp hss c hc
  rw [satAll_append, satAll_flatMap] at hssc
  have hbr := hssc.1 n (List.mem_range.mpr hn)
  simp only [hospOf_uid] at hbr
  rw [← hpdef] at hbr
  have hdsc := (satAll_flatMap σ I.couples _).mp hds c hc
  rw [satAll_append, satAll_flatMap] at hdsc
  have hbr2 := hdsc.1 n (List.mem_range.mpr hn)
  simp only [hospOf_uid] at hbr2
  rw [← hpdef] at hbr2
  constructor
  · -- one member switches
    simp only [coupleSingleSwitchBlocked]
    by_cases hp12 : p.1 = p.2
    · rw [if_neg (not_not_intro hp12)] at hbr ⊢
      by_cases hrk : rankIn (hospOf I p.1).prefs c.r0 <
          rankIn (hospOf I p.1).prefs c.r1
      · rw [if_pos hrk] at hbr ⊢
        rw [satAll_cons, satAll_cons] at hbr
        obtain ⟨hc1, hc2, -⟩ := hbr
        constructor
        · intro hm1
          have hrm1 : σ (.rm c.r1 p.2) = true := hmu1.mpr hm1
          have hbase : clauseEval σ
              [neg (.rm c.r1 p.2), pos (.cp c.uid n)] = false := by
            simp [clauseEval, litEval, neg, pos, hrm1, hcpf]
          obtain ⟨t, htmem, lit, hqe, hlit⟩ := qref_extract σ _ _ hc1 hbase
          have htmem2 : t = (hospOf I p.1, c.r0, (hospOf I p.1).capacity) ∨
              t = (hospOf I p.2, c.r1, (hospOf I p.2).capacity - 1) := by
            simpa using htmem
          rcases htmem2 with rfl | rfl
          · exact Or.inl (entry_full I σ wf hm hq p.1 c.r0 _ lit hp1ne hex1
              hr0inp (by omega) hqe hlit)
          · exact Or.inr (entry_full I σ wf hm hq p.2 c.r1 _ lit hp2ne hex2
              hr1inp (by omega) hqe hlit)
        · intro hm0
          have hrm0 : σ (.rm c.r0 p.1) = true := hmu0.mpr hm0
          have hbase : clauseEval σ
              [neg (.rm c.r0 p.1), pos (.cp c.uid n)] = false := by
            simp [clauseEval, litEval, neg, pos, hrm0, hcpf]
          obtain ⟨t, htmem, lit, hqe, hlit⟩ := qref_extract σ _ _ hc2 hbase
          have htmem2 : t = (hospOf I p.2, c.r1, (hospOf I p.2).capacity) := by
            simpa using htmem
          subst htmem2
          exact entry_full I σ wf hm hq p.2 c.r1 _ lit hp2ne hex2 hr1inp
            (by omega) hqe hlit
      · rw [if_neg hrk] at hbr ⊢
        rw [satAll_cons, satAll_cons] at hbr
        obtain ⟨hc1, hc2, -⟩ := hbr
        constructor
        · intro hm1
          have hrm1 : σ (.rm c.r1 p.2) = true := hmu1.mpr hm1
          have hbase : clauseEval σ
              [neg (.rm c.r1 p.2), pos (.cp c.uid n)] = false := by
            simp [clauseEval, litEval, neg, pos, hrm1, hcpf]
          obtain ⟨t, htmem, lit, hqe, hlit⟩ := qref_extract σ _ _ hc1 hbase
          have htmem2 : t = (hospOf I p.1, c.r0, (hospOf I p.1).capacity) := by
            simpa using htmem
          subst htmem2
          exact entry_full I σ wf hm hq p.1 c.r0 _ lit hp1ne hex1 hr0inp
            (by omega) hqe hlit
        · intro hm0
          have hrm0 : σ (.rm c.r0 p.1) = true := hmu0.mpr hm0
          have hbase : clauseEval σ
              [neg (.rm c.r0 p.1), pos (.cp c.uid n)] = false := by
            simp [clauseEval, litEval, neg, pos, hrm0, hcpf]
          obtain ⟨t, htmem, lit, hqe, hlit⟩ := qref_extract σ _ _ hc2 hbase
          have htmem2 : t = (hospOf I p.1, c.r0, (hospOf I p.1).capacity - 1) ∨
              t = (hospOf I p.2, c.r1, (hospOf I p.2).capacity) := by
            simpa using htmem
          rcases htmem2 with rfl | rfl
          · exact Or.inl (entry_full I σ wf hm hq p.1 c.r0 _ lit hp1ne hex1
              hr0inp (by omega) hqe hlit)
          · exact Or.inr (entry_full I σ wf hm hq p.2 c.r1 _ lit hp2ne hex2
              hr1inp (by omega) hqe hlit)
    · rw [if_pos hp12] at hbr ⊢
      rw [satAll_cons, satAll_cons] at hbr
      obtain ⟨hc1, hc2, -⟩ := hbr
      constructor
      · intro hm1
        refine ⟨hp1ne, ?_⟩
        have hrm1 : σ (.rm c.r1 p.2) = true := hmu1.mpr hm1
        have hbase : clauseEval σ
            [neg (.rm c.r1 p.2), pos (.cp c.uid n)] = false := by
          simp [clauseEval, litEval, neg, pos, hrm1, hcpf]
        obtain ⟨t, htmem, lit, hqe, hlit⟩ := qref_extract σ _ _ hc1 hbase
        have htmem2 : t = (hospOf I p.1, c.r0, (hospOf I p.1).capacity) := by
          simpa using htmem
        subst htmem2
        exact entry_full I σ wf hm hq p.1 c.r0 _ lit hp1ne hex1 hr0inp
          (by omega) hqe hlit
      · intro hm0
        refine ⟨hp2ne, ?_⟩
        have hrm0 : σ (.rm c.r0 p.1) = true := hmu0.mpr hm0
        have hbase : clauseEval σ
            [neg (.rm c.r0 p.1), pos (.cp c.uid n)] = false := by
          simp [clauseEval, litEval, neg, pos, hrm0, hcpf]
        obtain ⟨t, htmem, lit, hqe, hlit⟩ := qref_extract σ _ _ hc2 hbase
        have htmem2 : t = (hospOf I p.2, c.r1, (hospOf I p.2).capacity) := by
          simpa using htmem
        subst htmem2
        exact entry_full I σ wf hm hq p.2 c.r1 _ lit hp2ne hex2 hr1inp
          (by omega) hqe hlit
  · -- both members switch
    simp only [coupleDoubleSwitchBlocked]
    by_cases hcap0 : (hospOf I p.1).capacity = 0 ∨ (hospOf I p.2).capacity = 0
    · rw [if_pos hcap0]
      trivial
    · rw [if_neg hcap0] at hbr2 ⊢
      by_cases hp12 : p.1 = p.2
      · rw [if_neg (not_not_intro hp12)] at hbr2 ⊢
        by_cases hcap1 : (hospOf I p.1).capacity = 1
        · rw [if_pos hcap1]
          trivial
        · rw [if_neg hcap1] at hbr2 ⊢
          rw [satAll_cons] at hbr2
          obtain ⟨hc1, -⟩ := hbr2
          cases h0v : σ (.rm c.r0 p.1) with
          | true => exact Or.inl (hmu0.mp h0v)
          | false =>
          cases h1v : σ (.rm c.r1 p.2) with
          | true => exact Or.inr (Or.inl (hmu1.mp h1v))
          | false =>
          have hbase : clauseEval σ
              [pos (.rm c.r0 p.1), pos (.rm c.r1 p.2), pos (.cp c.uid n)] =
              false := by
            simp [clauseEval, litEval, neg, pos, h0v, h1v, hcpf]
          obtain ⟨t, htmem, lit, hqe, hlit⟩ := qref_extract σ _ _ hc1 hbase
          have htmem2 : t = (hospOf I p.1, c.r0, (hospOf I p.1).capacity) ∨
              t = (hospOf I p.2, c.r1, (hospOf I p.2).capacity) ∨
              t = (hospOf I p.1, c.r0, (hospOf I p.1).capacity - 1) ∨
              t = (hospOf I p.2, c.r1, (hospOf I p.2).capacity - 1) := by
            simpa using htmem
          rcases htmem2 with rfl | rfl | rfl | rfl
          · exact Or.inr (Or.inr (Or.inl (entry_full I σ wf hm hq p.1 c.r0 _
              lit hp1ne hex1 hr0inp (by omega) hqe hlit)))
          · exact Or.inr (Or.inr (Or.inr (Or.inl (entry_full I σ wf hm hq p.2
              c.r1 _ lit hp2ne hex2 hr1inp (by omega) hqe hlit))))
          · exact Or.inr (Or.inr (Or.inr (Or.inr (Or.inl (entry_full I σ wf hm
              hq p.1 c.r0 _ lit hp1ne hex1 hr0inp (by omega) hqe hlit)))))
          · exact Or.inr (Or.inr (Or.inr (Or.inr (Or.inr (entry_full I σ wf hm
              hq p.2 c.r1 _ lit hp2ne hex2 hr1inp (by omega) hqe hlit)))))
      · rw [if_pos hp12] at hbr2 ⊢
        rw [satAll_cons] at hbr2
        obtain ⟨hc1, -⟩ := hbr2
        cases h0v : σ (.rm c.r0 p.1) with
        | true => exact Or.inl (hmu0.mp h0v)
        | false =>
        cases h1v : σ (.rm c.r1 p.2) with
        | true => exact Or.inr (Or.inl (hmu1.mp h1v))
        | false =>
        have hbase : clauseEval σ
            [pos (.rm c.r0 p.1), pos (.rm c.r1 p.2), pos (.cp c.uid n)] =
            false := by
          simp [clauseEval, litEval, neg, pos, h0v, h1v, hcpf]
        obtain ⟨t, htmem, lit, hqe, hlit⟩ := qref_extract σ _ _ hc1 hbase
        have htmem2 : t = (hospOf I p.1, c.r0, (hospOf I p.1).capacity) ∨
            t = (hospOf I p.2, c.r1, (hospOf I p.2).capacity) := by
          simpa using htmem
        rcases htmem2 with rfl | rfl
        · exact Or.inr (Or.inr (Or.inl ⟨hp1ne, entry_full I σ wf hm hq p.1
            c.r0 _ lit hp1ne hex1 hr0inp (by omega) hqe hlit⟩))
        · exact Or.inr (Or.inr (Or.inr ⟨hp2ne, entry_full I σ wf hm hq p.2
            c.r1 _ lit hp2ne hex2 hr1inp (by omega) hqe hlit⟩))

/-- C1, amended.  For every well-formed problem instance whose couples
rank no pair with a nil component, every total truth assignment that
satisfies all clauses emitted by `solve_sat` (matching,
sequential-counter, `cpref`, and the three stability families) decodes
to a matching with no blocking pair: every single resident strictly
preferring a hospital to its assignment finds it at capacity with
residents it weakly prefers, and for every couple and ranked pair
strictly preferred to the couple's assignment, every single-member or
double switch has a blocked component.  (The restriction on nil
components is forced by the counterexample
`solve_sat_decode_counterexample` below: with a nil component the nil
match column is allocated twice and the orphaned variable corrupts the
registry decode.) -/
theorem solve_sat_stability (I : ProblemInstance) (σ : Var → Bool)
    (wf : Wf I) (hnn : NoNilPairs I) (hsat : SatAll σ (encode I)) :
    SinglesStable I (decodeMu σ I) ∧ CouplesStable I (decodeMu σ I) := by
  rw [encode] at hsat
  rw [satAll_append, satAll_append, satAll_append, satAll_append,
    satAll_append, satAll_append] at hsat
  obtain ⟨⟨⟨⟨⟨⟨hm, hq⟩, hcpA⟩, hcpB⟩, hsing⟩, hssw⟩, hdsw⟩ := hsat
  refine ⟨singles_stable_of_sat I σ wf hm hq hsing, ?_⟩
  exact couples_stable_of_sat I σ wf hnn hm hq
    ((satAll_append σ _ _).mpr ⟨hcpA, hcpB⟩) hssw hdsw

/-- Witness for the amended C1 at instance `I3` and assignment
`sigma3`. -/
theorem solve_sat_stability_witness :
    SinglesStable I3 (decodeMu sigma3 I3) ∧
      CouplesStable I3 (decodeMu sigma3 I3) :=
  solve_sat_stability I3 sigma3 wfI3 (by decide) (by decide)

set_option maxHeartbeats 2000000 in
/-- C1, counterexample to the claim as stated.  On the instance `Icx`
(couple 5 ranks (1, 3) above (1, nil)), the total assignment `sigmaCx`
satisfies every clause `solve_sat` emits (it matches the couple to its
top pair and sets the orphaned duplicate nil-column variable 4 to true),
yet the registry decoder — processing the model in ascending variable
order — lets the orphan overwrite resident 4's assignment with the nil
hospital, and the decoded matching `{2 ↦ 1, 4 ↦ nil}` has a blocking
pair: the couple strictly prefers its ranked pair (1, 3) (member 2
already at 1, member 4 switching alone to hospital 3), and hospital 3
(capacity 1, empty under the decoded matching) is not at capacity with
residents it weakly prefers to 4 — no component of the switch is
blocked. -/
theorem solve_sat_decode_counterexample :
    intAllSat sigmaCx (solveSatClauses Icx) = true ∧
    decodeRegistry sigmaCx (solveSatState Icx) Icx = [(2, 1), (4, NIL_UID)] ∧
    mCx 2 = 1 ∧ mCx 4 = NIL_UID ∧
    ¬ (SinglesStable Icx mCx ∧ CouplesStable Icx mCx) := by
  refine ⟨by decide, by decide, by decide, by decide, ?_⟩
  rintro ⟨-, hcs⟩
  have hnotm : ¬ MatchedAtLe mCx ⟨5, 2, 4, [(1, 3), (1, NIL_UID)]⟩ 0 := by
    rintro (⟨j, hj, hjl, h1, h2⟩ | ⟨hl, -, -⟩)
    · have hj0 : j = 0 := by omega
      subst hj0
      exact absurd h2 (by decide)
    · simp at hl
  have hblk := hcs ⟨5, 2, 4, [(1, 3), (1, NIL_UID)]⟩ (by decide) 0 (by decide)
    hnotm
  obtain ⟨hsw, -⟩ := hblk
  rw [show (([(1, 3), (1, NIL_UID)] : List (Nat × Nat)).getD 0 (0, 0)) =
    ((1 : Nat), (3 : Nat)) from rfl] at hsw
  simp only [coupleSingleSwitchBlocked] at hsw
  rw [if_pos (by decide : (1 : Nat) ≠ 3)] at hsw
  have hful := (hsw.2 (by decide)).2
  simp only [fullUpTo] at hful
  exact absurd hful (by decide)

/-- C6: the claim says the two verify modes evaluate the same stability
criterion and agree on every matching.  Code bug: on the instance `I6`
(one hospital of capacity 2, two singles both ranking it) and the
matching assigning both singles to it — which is feasible and stable —
the MIP verify mode evaluates every generated constraint and reports no
violation, while the SAT verify mode crashes on
`assert not h in h_hash` before reaching a verdict: its value builder
only supports one resident per hospital. -/
theorem verify_modes_diverge :
    mipVerify I6 entries6 = some [] ∧
    satVerifyOk I6 entries6 = .error .duplicateHospital ∧
    SinglesStable I6 m6fun ∧ CouplesStable I6 m6fun := by
  refine ⟨by rfl, by rfl, by decide, ?_⟩
  intro c hc
  simp [I6] at hc

end SMC


